import Mathlib

/-!
Verification of the Info-Parser repository (src/solution.py, src/app.py).

The development shallowly embeds the Python code of
`MaterialRequestParser` (solution.py): the decoded-JSON value model, the
builtins the code uses (str, strip, lower, float, int, dict.get,
json.loads, datetime.fromisoformat, re substitutions), and the methods
`validate_and_fix`, `validate_date`, `clean_json_response`,
`emergency_json_extraction`, `create_fallback_response` and `parse_text`.

Modelling conventions:
- Python values decoded from JSON (and the values the parser manipulates)
  are the inductive `PyVal`; dictionaries are association lists with
  Python-dict lookup semantics (first matching key; insertion preserves
  position of an existing key).
- Python floats are modelled exactly: a finite float is the rational
  n / 10^k stored as an integer pair (n, k) normalized so that k = 0 or
  10 does not divide n (IEEE-754 rounding is not modelled; every literal
  in the claims is exactly representable or unaffected), plus `inf`,
  `neginf`, `nan`.  Overflow of `float(...)` to infinity is modelled with
  the cutoff 2^1024 (the rounding behaviour exactly at the boundary, and
  underflow to zero, are not modelled).
- Exceptions are `Except PyErr`; the except-clauses of the source decide
  which `PyErr` values are caught where.
-/

namespace InfoParser

/-- Python float values: a finite float `finite n k` denotes the exact
rational n / 10^k (constructed only through `mkFinite`, which normalizes
so that equal values have equal representations), plus the special
values. -/
inductive PyFloat where
  | finite (n : ℤ) (k : ℕ)
  | inf
  | neginf
  | nan
deriving DecidableEq, Repr

/-- Remove common factors of ten from the representation n / 10^k. -/
def norm10 : ℤ → ℕ → ℤ × ℕ
  | n, 0 => (n, 0)
  | n, k + 1 => if n % 10 = 0 then norm10 (n / 10) k else (n, k + 1)

/-- Construct a normalized finite float denoting n / 10^k. -/
def mkFinite (n : ℤ) (k : ℕ) : PyFloat :=
  .finite (norm10 n k).1 (norm10 n k).2

/-- The rational value of a finite float (for use in statements). -/
def PyFloat.val : PyFloat → Option ℚ
  | .finite n k => some ((n : ℚ) / 10 ^ k)
  | _ => none

/-- Decoded Python values as produced by `json.loads` and manipulated by
the parser: None, bool, int, float, str, list, dict. -/
inductive PyVal where
  | none_
  | bool (b : Bool)
  | int (n : ℤ)
  | float (f : PyFloat)
  | str (s : String)
  | list (l : List PyVal)
  | dict (d : List (String × PyVal))
deriving Repr

/-- A Python dict with string keys, as an association list in insertion
order. -/
abbrev PyDict := List (String × PyVal)

/-- Python exception kinds distinguished by the source's except-clauses. -/
inductive PyErr where
  | attributeError
  | valueError
  | typeError
  | overflowError
  | jsonDecodeError
deriving DecidableEq, Repr

/-- Python whitespace (the ASCII part of `str.strip` / regex `\s`). -/
def pyWs (c : Char) : Bool :=
  c = ' ' || c = '\t' || c = '\n' || c = '\r' || c = '\x0b' || c = '\x0c'

/-- Python `str.strip()` on a character list. -/
def pyStripList (l : List Char) : List Char :=
  ((l.dropWhile pyWs).reverse.dropWhile pyWs).reverse

/-- Python `str.strip()`. -/
def pyStrip (s : String) : String := ⟨pyStripList s.data⟩

/-- Lower-case one character (ASCII, as Python `str.lower` on ASCII). -/
def pyCharLower (c : Char) : Char :=
  if 65 ≤ c.toNat ∧ c.toNat ≤ 90 then Char.ofNat (c.toNat + 32) else c

/-- Python `str.lower()` (ASCII). -/
def pyLower (s : String) : String := ⟨s.data.map pyCharLower⟩

/-- Decimal digit test. -/
def isDig (c : Char) : Bool := 48 ≤ c.toNat && c.toNat ≤ 57

/-- Value of a decimal digit character. -/
def digVal (c : Char) : ℕ := c.toNat - 48

/-- Value of a big-endian list of decimal digit characters. -/
def digitsToNat (l : List Char) : ℕ := l.foldl (fun a c => 10 * a + digVal c) 0

/-- Decimal digit character for a value below ten. -/
def digitChar (n : ℕ) : Char :=
  match n with
  | 0 => '0' | 1 => '1' | 2 => '2' | 3 => '3' | 4 => '4'
  | 5 => '5' | 6 => '6' | 7 => '7' | 8 => '8' | _ => '9'

/-- Decimal digits of a natural number, most significant first (fuel-driven;
fuel `n+1` always suffices). -/
def natDigitsAux : ℕ → ℕ → List Char
  | 0, _ => []
  | f + 1, n => if n < 10 then [digitChar n] else natDigitsAux f (n / 10) ++ [digitChar (n % 10)]

/-- Decimal digits of a natural number. -/
def natDecimalDigits (n : ℕ) : List Char := natDigitsAux (n + 1) n

/-- Python `str` of a natural number. -/
def natDecimal (n : ℕ) : String := ⟨natDecimalDigits n⟩

/-- Python `str` of an int. -/
def intDecimal (n : ℤ) : String :=
  (if n < 0 then "-" else "") ++ natDecimal n.natAbs

/-- Left-pad a digit list with zeros to width w. -/
def padZeros (w : ℕ) (l : List Char) : List Char :=
  List.replicate (w - l.length) '0' ++ l

/-- Python `str` of a float.  A normalized finite float prints as its
exact decimal expansion with at least one digit on each side of the
point, matching Python for the magnitudes that occur here (Python's
switch to exponent notation for very large or very small magnitudes is
not modelled, nor is the sign of -0.0). -/
def pyStrFloat : PyFloat → String
  | .inf => "inf"
  | .neginf => "-inf"
  | .nan => "nan"
  | .finite n k =>
    (if n < 0 then "-" else "") ++
      (if k = 0 then natDecimal n.natAbs ++ ".0"
       else natDecimal (n.natAbs / 10 ^ k) ++ "." ++
            ⟨padZeros k (natDecimalDigits (n.natAbs % 10 ^ k))⟩)

/-- The apostrophe character, used by Python `repr` of strings. -/
def quoteChar : Char := Char.ofNat 39

mutual

/-- Python `repr` of a value (element form used inside containers; the
quoting of strings is simplified to plain apostrophes, without escaping). -/
def pyRepr : PyVal → String
  | .none_ => "None"
  | .bool true => "True"
  | .bool false => "False"
  | .int n => intDecimal n
  | .float f => pyStrFloat f
  | .str s => ⟨quoteChar :: s.data ++ [quoteChar]⟩
  | .list l => "[" ++ pyReprList l ++ "]"
  | .dict d => "\x7b" ++ pyReprDict d ++ "\x7d"

/-- Comma-separated reprs of list elements. -/
def pyReprList : List PyVal → String
  | [] => ""
  | [x] => pyRepr x
  | x :: y :: xs => pyRepr x ++ ", " ++ pyReprList (y :: xs)

/-- Comma-separated reprs of dict entries. -/
def pyReprDict : List (String × PyVal) → String
  | [] => ""
  | [(k, v)] => ⟨quoteChar :: k.data ++ [quoteChar]⟩ ++ ": " ++ pyRepr v
  | (k, v) :: e :: es =>
    ⟨quoteChar :: k.data ++ [quoteChar]⟩ ++ ": " ++ pyRepr v ++ ", " ++ pyReprDict (e :: es)

end

/-- Python `str()` of a value: the string itself for strings, `repr`
otherwise. -/
def pyStr : PyVal → String
  | .str s => s
  | v => pyRepr v

/-- Python truthiness of a value. -/
def pyTruthy : PyVal → Bool
  | .none_ => false
  | .bool b => b
  | .int n => n ≠ 0
  | .float f => f != .finite 0 0
  | .str s => s ≠ ""
  | .list l => !l.isEmpty
  | .dict d => !d.isEmpty

/-- Python `dict.get(k, default)`: the value of the first matching key
(keys are unique in dicts produced by `json.loads`), or the default. -/
def pyGetD (d : PyDict) (k : String) (dflt : PyVal) : PyVal :=
  match d.find? (fun p => p.1 == k) with
  | some p => p.2
  | none => dflt

/-- Python `dict.get(k)` (default `None`). -/
def pyGet (d : PyDict) (k : String) : PyVal := pyGetD d k .none_

/-- Insert a key into a dict with Python semantics: an existing key keeps
its position and gets the new value, a new key is appended. -/
def pyDictInsert (d : PyDict) (k : String) (v : PyVal) : PyDict :=
  if d.any (fun p => p.1 == k) then
    d.map (fun p => if p.1 == k then (k, v) else p)
  else d ++ [(k, v)]

/-- Python `'.' in s` for a single character. -/
def pyContainsChar (s : String) (c : Char) : Bool := s.data.contains c

/-- Python `str.replace(pat, repl)` (all occurrences, left to right),
on character lists. -/
def pyReplaceList (pat repl : List Char) : ℕ → List Char → List Char
  | _, [] => []
  | 0, l => l
  | fuel + 1, l@(c :: rest) =>
    if pat ≠ [] ∧ pat.isPrefixOf l then
      repl ++ pyReplaceList pat repl fuel (l.drop pat.length)
    else c :: pyReplaceList pat repl fuel rest

/-- Python `str.replace(pat, repl)` for a non-empty pattern. -/
def pyReplace (s pat repl : String) : String :=
  ⟨pyReplaceList pat.data repl.data s.data.length s.data⟩

/-- Sign prefix of a numeric literal: returns (negative, rest). -/
def splitSign : List Char → Bool × List Char
  | '-' :: r => (true, r)
  | '+' :: r => (false, r)
  | l => (false, l)

/-- Overflow cutoff of IEEE-754 double precision, as used by `float(...)`:
magnitudes at least 2^1024 become infinite.  Written as the explicit
numeral so that it evaluates without large exponentiation. -/
def floatCutoff : ℕ := 179769313486231590772930519078902473361797697894230657273430081157732675805500963132708477322407536021120113879871393357658789768814416622492847430639474124377767893424865485276302219601246094119453082952085005768838150682342462881473913110540827237163350510684586298239947245938479716304835356329624224137216

/-- Unsigned value of a float literal as n / 10^k: mantissa digits value
with the decimal exponent applied. -/
def floatPartsNK (fpLen mant : ℕ) (e : ℤ) : ℕ × ℕ :=
  if 0 ≤ e - fpLen then (mant * 10 ^ (e - fpLen).toNat, 0)
  else (mant, (fpLen - e).toNat)

/-- Build the float for the literal parts: negative sign, integer digits,
fraction digits, exponent sign and digits.  The value is
(intpart.fracpart) * 10^(±exp), exactly. -/
def floatOfParts (neg : Bool) (ip fp : List Char) (eneg : Bool) (ed : List Char) : PyFloat :=
  let nk : ℕ × ℕ :=
    floatPartsNK fp.length (digitsToNat (ip ++ fp))
      ((if eneg then -1 else 1) * (digitsToNat ed : ℤ))
  if nk.1 ≥ floatCutoff * 10 ^ nk.2 then (if neg then .neginf else .inf)
  else mkFinite ((if neg then -1 else 1) * nk.1) nk.2

/-- Python `float(s)` after whitespace stripping: an optional sign
followed by `inf`/`infinity`/`nan` (case-insensitive) or a decimal
literal `digits [. digits] [e/E [sign] digits]` with at least one digit.
`none` models `ValueError`.  (Digit-group underscores are not
modelled.) -/
def pyFloatCore (l : List Char) : Option PyFloat :=
  let sl := splitSign l
  let low := sl.2.map pyCharLower
  if low = "inf".data ∨ low = "infinity".data then
    some (if sl.1 then .neginf else .inf)
  else if low = "nan".data then some .nan
  else
    let ipr := sl.2.span isDig
    match ipr.2 with
    | '.' :: r =>
      let fpr := r.span isDig
      (match fpr.2 with
       | 'e' :: r2 | 'E' :: r2 =>
         let esr := splitSign r2
         let edr := esr.2.span isDig
         if ipr.1 = [] ∧ fpr.1 = [] then none
         else if edr.1 = [] ∨ edr.2 ≠ [] then none
         else some (floatOfParts sl.1 ipr.1 fpr.1 esr.1 edr.1)
       | [] =>
         if ipr.1 = [] ∧ fpr.1 = [] then none
         else some (floatOfParts sl.1 ipr.1 fpr.1 false [])
       | _ => none)
    | 'e' :: r2 | 'E' :: r2 =>
      let esr := splitSign r2
      let edr := esr.2.span isDig
      if ipr.1 = [] then none
      else if edr.1 = [] ∨ edr.2 ≠ [] then none
      else some (floatOfParts sl.1 ipr.1 [] esr.1 edr.1)
    | [] =>
      if ipr.1 = [] then none else some (floatOfParts sl.1 ipr.1 [] false [])
    | _ => none

/-- Python `float(s)` on a string: strip whitespace, then parse. -/
def pyFloatOfString (s : String) : Option PyFloat :=
  pyFloatCore (pyStripList s.data)

/-- Python `int(f)` for a float: truncation toward zero; `OverflowError`
for infinities, `ValueError` for nan. -/
def pyIntOfFloat : PyFloat → Except PyErr ℤ
  | .finite n k => .ok ((if n < 0 then -1 else 1) * ((n.natAbs / 10 ^ k : ℕ) : ℤ))
  | .inf => .error .overflowError
  | .neginf => .error .overflowError
  | .nan => .error .valueError

/-- Gregorian leap-year test, as `datetime` uses. -/
def isLeap (y : ℕ) : Bool := y % 4 = 0 && (y % 100 ≠ 0 || y % 400 = 0)

/-- Days in a month, as `datetime` validates. -/
def daysInMonth (y m : ℕ) : ℕ :=
  if m = 2 then (if isLeap y then 29 else 28)
  else if m = 4 ∨ m = 6 ∨ m = 9 ∨ m = 11 then 30
  else 31

/-- Two decimal digit characters to a number, if both are digits. -/
def twoDigits (a b : Char) : Option ℕ :=
  if isDig a ∧ isDig b then some (10 * digVal a + digVal b) else none

/-- Validity of the time-of-day part of `datetime.fromisoformat` input
(Python 3.10 grammar): `HH[:MM[:SS[.fff[fff]]]]`, optionally followed by
an offset `+HH:MM` or `-HH:MM`.  The parsed time is discarded by the
caller (`strftime('%Y-%m-%d')` keeps only the date), so only validity is
returned. -/
def validTime (l : List Char) : Bool :=
  let frac : List Char → Bool := fun r =>
    (decide (r.length = 3) || decide (r.length = 6)) && r.all isDig
  let offs : List Char → Bool := fun r =>
    match r with
    | [] => true
    | sg :: oh1 :: oh2 :: ':' :: om1 :: om2 :: [] =>
      (decide (sg = '+') || decide (sg = '-')) &&
        (match twoDigits oh1 oh2, twoDigits om1 om2 with
         | some oh, some om => decide (oh < 24) && decide (om < 60)
         | _, _ => false)
    | _ => false
  let sec : List Char → Bool := fun r =>
    match r with
    | s1 :: s2 :: rest =>
      (match twoDigits s1 s2 with
       | some s => decide (s < 60)
       | none => false) &&
        (match rest with
         | '.' :: fr =>
           let fd := fr.takeWhile isDig
           frac fd && offs (fr.drop fd.length)
         | _ => offs rest)
    | _ => false
  let minu : List Char → Bool := fun r =>
    match r with
    | m1 :: m2 :: rest =>
      (match twoDigits m1 m2 with
       | some m => decide (m < 60)
       | none => false) &&
        (match rest with
         | ':' :: rs => sec rs
         | _ => offs rest)
    | _ => false
  match l with
  | h1 :: h2 :: rest =>
    (match twoDigits h1 h2 with
     | some h => decide (h < 24)
     | none => false) &&
      (match rest with
       | ':' :: rm => minu rm
       | _ => offs rest)
  | _ => false

/-- Python 3.10 `datetime.fromisoformat`, reduced to the calendar date it
yields: requires `YYYY-MM-DD` (four, two, two digits at fixed positions),
optionally followed by a single separator character and a valid time-of-day
part; the time and offset are validated and discarded (the caller formats
only the date).  `none` models `ValueError`. -/
def fromisoformatYMD (s : String) : Option (ℕ × ℕ × ℕ) :=
  match s.data with
  | y1 :: y2 :: y3 :: y4 :: '-' :: m1 :: m2 :: '-' :: d1 :: d2 :: rest =>
    if (([y1, y2, y3, y4, m1, m2, d1, d2]).all isDig) then
      let y := digitsToNat [y1, y2, y3, y4]
      let m := digitsToNat [m1, m2]
      let d := digitsToNat [d1, d2]
      if 1 ≤ y ∧ 1 ≤ m ∧ m ≤ 12 ∧ 1 ≤ d ∧ d ≤ daysInMonth y m then
        match rest with
        | [] => some (y, m, d)
        | _sep :: timePart => if validTime timePart then some (y, m, d) else none
      else none
    else none
  | _ => none

/-- `strftime('%Y-%m-%d')` of a date. -/
def fmtDate (y m d : ℕ) : String :=
  ⟨padZeros 4 (natDecimalDigits y) ++ '-' ::
     (padZeros 2 (natDecimalDigits m) ++ '-' :: padZeros 2 (natDecimalDigits d))⟩

/-- MaterialRequestParser.validate_date (src/solution.py, lines 252-275):
falsy and null-like values give None; otherwise the stringified, stripped
value with `Z` replaced by `+00:00` is parsed with `fromisoformat` and
reformatted as `YYYY-MM-DD`; parse failure gives None. -/
def validate_date (date_str : PyVal) : PyVal :=
  if ¬ pyTruthy date_str then .none_
  else if pyLower (pyStr date_str) ∈ ["null", "none", "n/a", ""] then .none_
  else
    match fromisoformatYMD (pyReplace (pyStrip (pyStr date_str)) "Z" "+00:00") with
    | some (y, m, d) => .str (fmtDate y m d)
    | none => .none_

/-- The null-like tokens of validate_and_fix. -/
def nullLike : List String := ["null", "none", "n/a"]

/-- The quantity branch of validate_and_fix (src/solution.py, lines
206-216): `float(qty_str) if '.' in qty_str else int(float(qty_str))`,
with `except (ValueError, TypeError)` giving None; `int()` of an infinite
float raises OverflowError, which that clause does not catch. -/
def qtyFix (qty : PyVal) : Except PyErr PyVal :=
  match qty with
  | .none_ => .ok .none_
  | q =>
    let qty_str := pyStr q
    if pyContainsChar qty_str '.' then
      match pyFloatOfString qty_str with
      | some f => .ok (.float f)
      | none => .ok .none_
    else
      match pyFloatOfString qty_str with
      | some f =>
        (match pyIntOfFloat f with
         | .ok n => .ok (.int n)
         | .error e => if e = .overflowError then .error e else .ok .none_)
      | none => .ok .none_

/-- MaterialRequestParser.validate_and_fix (src/solution.py, lines
181-250) on a dict.  Each string-like field is kept (stringified and
stripped) only when the raw value is truthy, the stripped stringification
is non-empty, and the lower-cased (untrimmed) stringification is not
null-like; quantity follows `qtyFix`; urgency is lower-cased, stripped
and defaulted to "low" outside the enum; deadline goes through
validate_date.  The result dict is built with exactly these seven keys in
insertion order. -/
def validate_and_fix (data : PyDict) : Except PyErr PyDict :=
  let material := pyGet data "material_name"
  let mFix : PyVal :=
    if pyTruthy material ∧ pyStrip (pyStr material) ≠ "" ∧
        pyLower (pyStr material) ∉ nullLike
    then .str (pyStrip (pyStr material)) else .none_
  let unit := pyGet data "unit"
  let unitFix : PyVal :=
    if pyTruthy unit ∧ pyStrip (pyStr unit) ≠ "" ∧
        pyLower (pyStr unit) ∉ nullLike
    then .str (pyStrip (pyStr unit)) else .none_
  let proj := pyGet data "project_name"
  let projFix : PyVal :=
    if pyTruthy proj ∧ pyStrip (pyStr proj) ≠ "" ∧
        pyLower (pyStr proj) ∉ nullLike
    then .str (pyStrip (pyStr proj)) else .none_
  let loc := pyGet data "location"
  let locFix : PyVal :=
    if pyTruthy loc ∧ pyStrip (pyStr loc) ≠ "" ∧
        pyLower (pyStr loc) ∉ nullLike
    then .str (pyStrip (pyStr loc)) else .none_
  let urgency := pyStrip (pyLower (pyStr (pyGetD data "urgency" (.str "low"))))
  let uFix : PyVal :=
    if urgency ∈ ["low", "medium", "high"] then .str urgency else .str "low"
  match qtyFix (pyGet data "quantity") with
  | .error e => .error e
  | .ok qFix =>
    .ok [("material_name", mFix), ("quantity", qFix), ("unit", unitFix),
         ("project_name", projFix), ("location", locFix), ("urgency", uFix),
         ("deadline", validate_date (pyGet data "deadline"))]

/-- validate_and_fix applied to an arbitrary decoded value: a non-dict
has no `.get` attribute, so the very first `data.get` raises
AttributeError. -/
def validate_and_fix_val (data : PyVal) : Except PyErr PyDict :=
  match data with
  | .dict d => validate_and_fix d
  | _ => .error .attributeError

/-- MaterialRequestParser.create_fallback_response (src/solution.py,
lines 300-318). -/
def create_fallback_response (text : String) : PyDict :=
  [("material_name", .str ("Parse failed: " ++ text.take 50 ++ "...")),
   ("quantity", .none_), ("unit", .none_), ("project_name", .none_),
   ("location", .none_), ("urgency", .str "low"), ("deadline", .none_)]

/-- JSON whitespace, as skipped by `json.loads`. -/
def jWs (c : Char) : Bool := c = ' ' || c = '\t' || c = '\n' || c = '\r'

/-- Skip JSON whitespace. -/
def jSkip (l : List Char) : List Char := l.dropWhile jWs

/-- Hexadecimal digit value. -/
def hexVal (c : Char) : Option ℕ :=
  if 48 ≤ c.toNat ∧ c.toNat ≤ 57 then some (c.toNat - 48)
  else if 97 ≤ c.toNat ∧ c.toNat ≤ 102 then some (c.toNat - 87)
  else if 65 ≤ c.toNat ∧ c.toNat ≤ 70 then some (c.toNat - 55)
  else none

/-- JSON string body after the opening quote: returns the decoded
content and the rest after the closing quote.  Escapes `\" \\ \/ \b \f
\n \r \t \uXXXX` are decoded (surrogate-pair combination is not
modelled); unescaped control characters are rejected, as in strict-mode
`json.loads`. -/
def jString : ℕ → List Char → Option (List Char × List Char)
  | 0, _ => none
  | _ + 1, [] => none
  | f + 1, c :: rest =>
    if c = '"' then some ([], rest)
    else if c = '\\' then
      match rest with
      | [] => none
      | e :: r2 =>
        if e = 'u' then
          match r2 with
          | h1 :: h2 :: h3 :: h4 :: r3 =>
            (match hexVal h1, hexVal h2, hexVal h3, hexVal h4 with
             | some a, some b, some cc, some d =>
               (jString f r3).map (fun p => (Char.ofNat (((a * 16 + b) * 16 + cc) * 16 + d) :: p.1, p.2))
             | _, _, _, _ => none)
          | _ => none
        else
          let esc : Option Char :=
            if e = '"' then some '"' else if e = '\\' then some '\\'
            else if e = '/' then some '/' else if e = 'b' then some '\x08'
            else if e = 'f' then some '\x0c' else if e = 'n' then some '\n'
            else if e = 'r' then some '\r' else if e = 't' then some '\t'
            else none
          match esc with
          | some ch => (jString f r2).map (fun p => (ch :: p.1, p.2))
          | none => none
    else if c.toNat < 32 then none
    else (jString f rest).map (fun p => (c :: p.1, p.2))

/-- JSON number per the `json` module's NUMBER_RE:
`-? (0 | [1-9][0-9]*) (\.[0-9]+)? ([eE][+-]?[0-9]+)?`; an integer literal
decodes to int, otherwise to float via the exact `floatOfParts`. -/
def jNumber (l : List Char) : Option (PyVal × List Char) :=
  let sn := match l with
            | '-' :: r => (true, r)
            | _ => (false, l)
  let ipr : Option (List Char × List Char) :=
    match sn.2 with
    | '0' :: r => some (['0'], r)
    | c :: r => if isDig c then some ((c :: r).span isDig) else none
    | [] => none
  match ipr with
  | none => none
  | some (ip, r1) =>
    let fpr : Option (List Char) × List Char :=
      match r1 with
      | '.' :: r =>
        (let p := r.span isDig
         if p.1 = [] then (none, r1) else (some p.1, p.2))
      | _ => (none, r1)
    let epr : Option (Bool × List Char) × List Char :=
      match fpr.2 with
      | 'e' :: r | 'E' :: r =>
        (let es := splitSign r
         let p := es.2.span isDig
         if p.1 = [] then (none, fpr.2) else (some (es.1, p.1), p.2))
      | _ => (none, fpr.2)
    match fpr.1, epr.1 with
    | none, none =>
      some (.int ((if sn.1 then -1 else 1) * (digitsToNat ip : ℤ)), fpr.2)
    | fp, ex =>
      some (.float (floatOfParts sn.1 ip (fp.getD [])
              (ex.map Prod.fst |>.getD false) (ex.map Prod.snd |>.getD [])), epr.2)

mutual

/-- One JSON value starting at the given position (`json.loads` core). -/
def jValue : ℕ → List Char → Option (PyVal × List Char)
  | 0, _ => none
  | f + 1, l =>
    match l with
    | '\x7b' :: r => jObjStart f (jSkip r)
    | '[' :: r => jArrStart f (jSkip r)
    | '"' :: r => (jString f r).map (fun p => (.str ⟨p.1⟩, p.2))
    | 't' :: 'r' :: 'u' :: 'e' :: r => some (.bool true, r)
    | 'f' :: 'a' :: 'l' :: 's' :: 'e' :: r => some (.bool false, r)
    | 'n' :: 'u' :: 'l' :: 'l' :: r => some (.none_, r)
    | 'N' :: 'a' :: 'N' :: r => some (.float .nan, r)
    | 'I' :: 'n' :: 'f' :: 'i' :: 'n' :: 'i' :: 't' :: 'y' :: r => some (.float .inf, r)
    | '-' :: 'I' :: 'n' :: 'f' :: 'i' :: 'n' :: 'i' :: 't' :: 'y' :: r =>
      some (.float .neginf, r)
    | _ => jNumber l

/-- Object body directly after `\x7b` and whitespace. -/
def jObjStart (f : ℕ) (l : List Char) : Option (PyVal × List Char) :=
  match f, l with
  | _, '\x7d' :: r => some (.dict [], r)
  | 0, _ => none
  | f + 1, l => jObjEntry f l []

/-- One `"key": value` object entry, then the separator loop. -/
def jObjEntry : ℕ → List Char → PyDict → Option (PyVal × List Char)
  | 0, _, _ => none
  | f + 1, l, acc =>
    match l with
    | '"' :: r =>
      match jString f r with
      | none => none
      | some (k, r2) =>
        match jSkip r2 with
        | ':' :: r3 =>
          (match jValue f (jSkip r3) with
           | none => none
           | some (v, r4) => jObjRest f (jSkip r4) (pyDictInsert acc ⟨k⟩ v))
        | _ => none
    | _ => none

/-- After an object entry: close or comma. -/
def jObjRest : ℕ → List Char → PyDict → Option (PyVal × List Char)
  | 0, _, _ => none
  | f + 1, l, acc =>
    match l with
    | '\x7d' :: r => some (.dict acc, r)
    | ',' :: r => jObjEntry f (jSkip r) acc
    | _ => none

/-- Array body directly after `[` and whitespace. -/
def jArrStart (f : ℕ) (l : List Char) : Option (PyVal × List Char) :=
  match f, l with
  | _, ']' :: r => some (.list [], r)
  | 0, _ => none
  | f + 1, l => jArrEntry f l []

/-- One array element, then the separator loop. -/
def jArrEntry : ℕ → List Char → List PyVal → Option (PyVal × List Char)
  | 0, _, _ => none
  | f + 1, l, acc =>
    match jValue f l with
    | none => none
    | some (v, r) => jArrRest f (jSkip r) (acc ++ [v])

/-- After an array element: close or comma. -/
def jArrRest : ℕ → List Char → List PyVal → Option (PyVal × List Char)
  | 0, _, _ => none
  | f + 1, l, acc =>
    match l with
    | ']' :: r => some (.list acc, r)
    | ',' :: r => jArrEntry f (jSkip r) acc
    | _ => none

end

/-- Python `json.loads`: skip whitespace, decode one value, and require
only whitespace to remain — trailing data is an error ("Extra data").
`none` models `json.JSONDecodeError`.  The fuel `length + 1` always
suffices because every recursion level first consumes a character. -/
def json_loads (s : String) : Option PyVal :=
  let l := jSkip s.data
  match jValue (l.length + 1) l with
  | some (v, rest) => if jSkip rest = [] then some v else none
  | none => none

/-- One match attempt of the emergency regex
`\x7b[^\x7b\x7d]*(?:\x7b[^\x7b\x7d]*\x7d[^\x7b\x7d]*)*\x7d` at a position
whose opening brace is already consumed: scans non-brace runs and
depth-one brace groups; a second-level opening brace or end of input
fails the match (backtracking cannot help, as the character classes are
disjoint from the braces). -/
def emMatchAux : ℕ → List Char → List Char → Option (List Char)
  | 0, _, _ => none
  | f + 1, l, acc =>
    let p := l.span (fun c => !(c = '\x7b' || c = '\x7d'))
    match p.2 with
    | '\x7d' :: _ => some (acc ++ p.1 ++ ['\x7d'])
    | '\x7b' :: r2 =>
      let q := r2.span (fun c => !(c = '\x7b' || c = '\x7d'))
      (match q.2 with
       | '\x7d' :: r4 => emMatchAux f r4 (acc ++ p.1 ++ '\x7b' :: q.1 ++ ['\x7d'])
       | _ => none)
    | _ => none

/-- Match of the emergency regex anchored at the current position. -/
def emMatch (l : List Char) : Option (List Char) :=
  match l with
  | '\x7b' :: rest => emMatchAux (rest.length + 1) rest ['\x7b']
  | _ => none

/-- Leftmost match of the emergency regex (`re.search`). -/
def emSearchAux : ℕ → List Char → Option (List Char)
  | 0, _ => none
  | _ + 1, [] => none
  | f + 1, l@(_ :: rest) =>
    match emMatch l with
    | some m => some m
    | none => emSearchAux f rest

/-- `re.search(r'\x7b[^\x7b\x7d]*(?:\x7b[^\x7b\x7d]*\x7d[^\x7b\x7d]*)*\x7d', content)`
as used by emergency_json_extraction. -/
def emergencySearch (s : String) : Option String :=
  (emSearchAux (s.data.length + 1) s.data).map (fun l => ⟨l⟩)

/-- The non-fallback outcome of emergency_json_extraction: the regex
match decoded and coerced; any exception inside the try block yields
`none` (and the caller falls back). -/
def emergencyCore (content : String) : Option PyDict :=
  match emergencySearch content with
  | some m =>
    (match json_loads m with
     | some v =>
       (match validate_and_fix_val v with
        | .ok r => some r
        | .error _ => none)
     | none => none)
  | none => none

/-- MaterialRequestParser.emergency_json_extraction (src/solution.py,
lines 277-298). -/
def emergency_json_extraction (content original_text : String) : PyDict :=
  (emergencyCore content).getD (create_fallback_response original_text)

/-- One pass of `re.sub(r'^PAT\s*', '', content, flags=re.MULTILINE)` for
a literal pattern PAT followed by greedy `\s*`: at each line start (start
of input or right after a newline of the original text) a PAT occurrence
and the following whitespace run are removed; matches are found left to
right and do not overlap. -/
def lineAnchoredSub (pat : List Char) : ℕ → Bool → List Char → List Char
  | 0, _, l => l
  | _ + 1, _, [] => []
  | f + 1, atLS, l@(c :: rest) =>
    if atLS && pat.isPrefixOf l then
      let r := l.drop pat.length
      let p := r.span pyWs
      lineAnchoredSub pat f (p.1.getLast? == some '\n') p.2
    else c :: lineAnchoredSub pat f (c == '\n') rest

/-- Match length of `\s*```$` (MULTILINE) at the current position: the
maximal whitespace run, three backticks, and an end of line.  A shorter
whitespace run cannot match, since the next character would have to be
both whitespace and a backtick. -/
def trailFenceLen (l : List Char) : Option ℕ :=
  let p := l.span pyWs
  if "```".data.isPrefixOf p.2 then
    match p.2.drop 3 with
    | [] => some (p.1.length + 3)
    | '\n' :: _ => some (p.1.length + 3)
    | _ => none
  else none

/-- One pass of `re.sub(r'\s*```$', '', content, flags=re.MULTILINE)`. -/
def trailSub : ℕ → List Char → List Char
  | 0, l => l
  | _ + 1, [] => []
  | f + 1, l@(c :: rest) =>
    match trailFenceLen l with
    | some n => trailSub f (l.drop n)
    | none => c :: trailSub f rest

/-- MaterialRequestParser.clean_json_response (src/solution.py, lines
165-179): remove `^```json\s*` (case-sensitively), then `^```\s*`, then
`\s*```$`, all MULTILINE, then strip. -/
def clean_json_response (content : String) : String :=
  let l1 := lineAnchoredSub "```json".data (content.data.length + 1) true content.data
  let l2 := lineAnchoredSub "```".data (l1.length + 1) true l1
  let l3 := trailSub (l2.length + 1) l2
  ⟨pyStripList l3⟩

/-- Behaviour of the model collaborator on one attempt: either the call
(or reading its content) raises, or it yields a content string. -/
inductive ModelOutcome where
  | err
  | text (s : String)
deriving Repr

/-- MaterialRequestParser.parse_text (src/solution.py, lines 107-163),
from a given attempt index: each attempt strips and cleans the model
text, runs `json.loads` and validate_and_fix; a JSONDecodeError on the
last attempt goes to emergency_json_extraction (on the cleaned content),
any other exception on the last attempt (model-call failure, or
validate_and_fix raising on a non-dict or an infinite quantity) returns
the fallback; earlier failures retry.  After the loop (in particular when
`max_retries = 0`) the safety fallback is returned. -/
def parse_text_loop (text : String) (outcomes : ℕ → ModelOutcome) :
    ℕ → ℕ → PyDict
  | 0, _ => create_fallback_response text
  | remaining + 1, attempt =>
    match outcomes attempt with
    | .err =>
      if remaining = 0 then create_fallback_response text
      else parse_text_loop text outcomes remaining (attempt + 1)
    | .text t =>
      let content := clean_json_response (pyStrip t)
      match json_loads content with
      | none =>
        if remaining = 0 then emergency_json_extraction content text
        else parse_text_loop text outcomes remaining (attempt + 1)
      | some parsed =>
        match validate_and_fix_val parsed with
        | .ok validated => validated
        | .error _ =>
          if remaining = 0 then create_fallback_response text
          else parse_text_loop text outcomes remaining (attempt + 1)

/-- MaterialRequestParser.parse_text: the retry loop started at attempt
0 with `max_retries` attempts remaining.  In `parse_text_loop`,
`remaining + 1` counts the attempts left including the current one, so
the source's `attempt == max_retries - 1` test for the last attempt is
`remaining = 0`. -/
def parse_text (text : String) (outcomes : ℕ → ModelOutcome)
    (max_retries : ℕ) : PyDict :=
  parse_text_loop text outcomes max_retries 0

/-- The seven keys of every record built by validate_and_fix,
create_fallback_response and emergency_json_extraction, in insertion
order. -/
def canonicalKeys : List String :=
  ["material_name", "quantity", "unit", "project_name", "location", "urgency", "deadline"]

/-- Dictionary operations, for stating which operations
validate_and_fix performs on its argument. -/
inductive DictOp where
  | get (k : String)
  | set (k : String) (v : PyVal)
  | del (k : String)
deriving Repr

/-- Effect of one dictionary operation on a dict: `get` reads only. -/
def applyOp (d : PyDict) : DictOp → PyDict
  | .get _ => d
  | .set k v => pyDictInsert d k v
  | .del k => d.filter (fun p => p.1 != k)

/-- Effect of a sequence of dictionary operations. -/
def applyOps (d : PyDict) (ops : List DictOp) : PyDict := ops.foldl applyOp d

/-- Instrumented `data.get(k, dflt)`: the read value, the dict after the
operation, and the operation appended to the trace. -/
def instrGet (st : PyDict × List DictOp) (k : String) (dflt : PyVal) :
    PyVal × PyDict × List DictOp :=
  (pyGetD st.1 k dflt, st.1, st.2 ++ [.get k])

/-- validate_and_fix with its accesses to the argument dict made
explicit: the same field logic as `validate_and_fix`, with every access
to `data` routed through `instrGet` in source order, returning the
result together with the final state of the argument dict and the trace
of the operations performed on it. -/
def validate_and_fix_instr (data : PyDict) :
    Except PyErr PyDict × PyDict × List DictOp :=
  let m := instrGet (data, []) "material_name" .none_
  let q := instrGet m.2 "quantity" .none_
  let u := instrGet q.2 "unit" .none_
  let p := instrGet u.2 "project_name" .none_
  let lo := instrGet p.2 "location" .none_
  let ur := instrGet lo.2 "urgency" (.str "low")
  let dl := instrGet ur.2 "deadline" .none_
  let mFix : PyVal :=
    if pyTruthy m.1 ∧ pyStrip (pyStr m.1) ≠ "" ∧ pyLower (pyStr m.1) ∉ nullLike
    then .str (pyStrip (pyStr m.1)) else .none_
  let unitFix : PyVal :=
    if pyTruthy u.1 ∧ pyStrip (pyStr u.1) ≠ "" ∧ pyLower (pyStr u.1) ∉ nullLike
    then .str (pyStrip (pyStr u.1)) else .none_
  let projFix : PyVal :=
    if pyTruthy p.1 ∧ pyStrip (pyStr p.1) ≠ "" ∧ pyLower (pyStr p.1) ∉ nullLike
    then .str (pyStrip (pyStr p.1)) else .none_
  let locFix : PyVal :=
    if pyTruthy lo.1 ∧ pyStrip (pyStr lo.1) ≠ "" ∧ pyLower (pyStr lo.1) ∉ nullLike
    then .str (pyStrip (pyStr lo.1)) else .none_
  let urgency := pyStrip (pyLower (pyStr ur.1))
  let uFix : PyVal :=
    if urgency ∈ ["low", "medium", "high"] then .str urgency else .str "low"
  let res : Except PyErr PyDict :=
    match qtyFix q.1 with
    | .error e => .error e
    | .ok qFix =>
      .ok [("material_name", mFix), ("quantity", qFix), ("unit", unitFix),
           ("project_name", projFix), ("location", locFix), ("urgency", uFix),
           ("deadline", validate_date dl.1)]
  (res, dl.2)

/-- The string-like field rule of validate_and_fix, folded into one
function (the source repeats this block for material_name, unit,
project_name and location). -/
def strFix (v : PyVal) : PyVal :=
  if pyTruthy v ∧ pyStrip (pyStr v) ≠ "" ∧ pyLower (pyStr v) ∉ nullLike
  then .str (pyStrip (pyStr v)) else .none_

/-- The urgency rule of validate_and_fix on the raw value read with
default "low". -/
def urgFix (v : PyVal) : PyVal :=
  if pyStrip (pyLower (pyStr v)) ∈ ["low", "medium", "high"]
  then .str (pyStrip (pyLower (pyStr v))) else .str "low"

/-- Test for the explicit-absence value None. -/
def isNoneVal : PyVal → Bool
  | .none_ => true
  | _ => false

/-- Test for an int value. -/
def isIntVal : PyVal → Bool
  | .int _ => true
  | _ => false

/-- The record validate_and_fix produces from an empty dict: all fields
absent, urgency "low". -/
def emptyCoerced : PyDict :=
  [("material_name", .none_), ("quantity", .none_), ("unit", .none_),
   ("project_name", .none_), ("location", .none_), ("urgency", .str "low"),
   ("deadline", .none_)]

/-- A value that is not a string whose lower-casing is one of the
null-like tokens (the condition under which re-coercing a kept string
field does not erase it). -/
def noNullLikeStr : PyVal → Bool
  | .str s => decide (pyLower s ∉ nullLike)
  | _ => true

/-- An attempt outcome on which the whole pipeline fails: the model
returned text whose cleaned form neither parses with `json.loads` nor
yields anything through the emergency regex extraction. -/
def unparsableOutcome (o : ModelOutcome) : Prop :=
  ∃ t, o = .text t ∧
    json_loads (clean_json_response (pyStrip t)) = none ∧
    emergencyCore (clean_json_response (pyStrip t)) = none

/-! ## Characterization of validate_and_fix -/

theorem validate_and_fix_ok_eq {d r : PyDict} (h : validate_and_fix d = .ok r) :
    ∃ q, qtyFix (pyGet d "quantity") = .ok q ∧
      r = [("material_name", strFix (pyGet d "material_name")), ("quantity", q),
           ("unit", strFix (pyGet d "unit")),
           ("project_name", strFix (pyGet d "project_name")),
           ("location", strFix (pyGet d "location")),
           ("urgency", urgFix (pyGetD d "urgency" (.str "low"))),
           ("deadline", validate_date (pyGet d "deadline"))] := by
  unfold validate_and_fix at h
  cases hq : qtyFix (pyGet d "quantity") with
  | error e => rw [hq] at h; exact absurd h (by simp)
  | ok q =>
    rw [hq] at h
    refine ⟨q, rfl, ?_⟩
    cases h
    rfl

theorem validate_and_fix_err {d : PyDict} {e : PyErr}
    (h : validate_and_fix d = .error e) : qtyFix (pyGet d "quantity") = .error e := by
  unfold validate_and_fix at h
  cases hq : qtyFix (pyGet d "quantity") with
  | error e' => rw [hq] at h; cases h; rfl
  | ok q => rw [hq] at h; exact absurd h (by simp)

theorem keys_of_validate_and_fix {d r : PyDict}
    (h : validate_and_fix d = .ok r) : r.map Prod.fst = canonicalKeys := by
  obtain ⟨q, -, hr⟩ := validate_and_fix_ok_eq h
  subst hr; rfl

theorem keys_of_fallback (t : String) :
    (create_fallback_response t).map Prod.fst = canonicalKeys := rfl

theorem validate_and_fix_val_ok {v : PyVal} {r : PyDict}
    (h : validate_and_fix_val v = .ok r) :
    ∃ dd, v = .dict dd ∧ validate_and_fix dd = .ok r := by
  cases v with
  | dict dd => exact ⟨dd, rfl, h⟩
  | none_ => exact absurd h (by simp [validate_and_fix_val])
  | bool b => exact absurd h (by simp [validate_and_fix_val])
  | int n => exact absurd h (by simp [validate_and_fix_val])
  | float f => exact absurd h (by simp [validate_and_fix_val])
  | str s => exact absurd h (by simp [validate_and_fix_val])
  | list l => exact absurd h (by simp [validate_and_fix_val])

theorem emergencyCore_some {c : String} {r : PyDict} (h : emergencyCore c = some r) :
    ∃ dd, validate_and_fix dd = .ok r := by
  unfold emergencyCore at h
  cases hs : emergencySearch c with
  | none => simp only [hs] at h; exact absurd h (by simp)
  | some m =>
    simp only [hs] at h
    cases hl : json_loads m with
    | none => simp only [hl] at h; exact absurd h (by simp)
    | some v =>
      simp only [hl] at h
      cases hv : validate_and_fix_val v with
      | error e => simp only [hv] at h; exact absurd h (by simp)
      | ok r' =>
        simp only [hv, Option.some.injEq] at h
        subst h
        obtain ⟨dd, -, hd⟩ := validate_and_fix_val_ok hv
        exact ⟨dd, hd⟩

theorem keys_of_emergency (c t : String) :
    (emergency_json_extraction c t).map Prod.fst = canonicalKeys := by
  unfold emergency_json_extraction
  cases he : emergencyCore c with
  | none => exact keys_of_fallback t
  | some r =>
    obtain ⟨dd, hd⟩ := emergencyCore_some he
    simpa using keys_of_validate_and_fix hd

theorem lookup_material {d r : PyDict} (h : validate_and_fix d = .ok r) :
    pyGet r "material_name" = strFix (pyGet d "material_name") := by
  obtain ⟨q, -, hr⟩ := validate_and_fix_ok_eq h; subst hr; rfl

theorem lookup_unit {d r : PyDict} (h : validate_and_fix d = .ok r) :
    pyGet r "unit" = strFix (pyGet d "unit") := by
  obtain ⟨q, -, hr⟩ := validate_and_fix_ok_eq h; subst hr; rfl

theorem lookup_project {d r : PyDict} (h : validate_and_fix d = .ok r) :
    pyGet r "project_name" = strFix (pyGet d "project_name") := by
  obtain ⟨q, -, hr⟩ := validate_and_fix_ok_eq h; subst hr; rfl

theorem lookup_location {d r : PyDict} (h : validate_and_fix d = .ok r) :
    pyGet r "location" = strFix (pyGet d "location") := by
  obtain ⟨q, -, hr⟩ := validate_and_fix_ok_eq h; subst hr; rfl

theorem lookup_quantity {d r : PyDict} (h : validate_and_fix d = .ok r) :
    qtyFix (pyGet d "quantity") = .ok (pyGet r "quantity") := by
  obtain ⟨q, hq, hr⟩ := validate_and_fix_ok_eq h; subst hr; exact hq

theorem lookup_urgency {d r : PyDict} (h : validate_and_fix d = .ok r) :
    pyGet r "urgency" = urgFix (pyGetD d "urgency" (.str "low")) := by
  obtain ⟨q, -, hr⟩ := validate_and_fix_ok_eq h; subst hr; rfl

theorem lookup_deadline {d r : PyDict} (h : validate_and_fix d = .ok r) :
    pyGet r "deadline" = validate_date (pyGet d "deadline") := by
  obtain ⟨q, -, hr⟩ := validate_and_fix_ok_eq h; subst hr; rfl

theorem qtyFix_eq_of_ne {v : PyVal} (h : v ≠ .none_) :
    qtyFix v =
      (if pyContainsChar (pyStr v) '.' then
        match pyFloatOfString (pyStr v) with
        | some f => .ok (.float f)
        | none => .ok .none_
      else
        match pyFloatOfString (pyStr v) with
        | some f =>
          (match pyIntOfFloat f with
           | .ok n => .ok (.int n)
           | .error e => if e = .overflowError then .error e else .ok .none_)
        | none => .ok .none_) := by
  cases v <;> first | exact absurd rfl h | rfl

/-! ## Claims -/

/-- C1 counterexample: the Schema Coercer is not total on non-mapping
values: `validate_and_fix` applied to a plain string raises
AttributeError (a string has no `.get` attribute), instead of returning
a record of all-absent fields. -/
theorem c1_counterexample :
    validate_and_fix_val (.str "just some prose, not an object") =
      .error .attributeError := rfl

/-- C1 (amended): the Schema Coercer is total on mapping inputs whose
quantity field does not make `int(float(...))` overflow: for every dict
whose quantity branch succeeds, validate_and_fix terminates normally
with a record carrying exactly the seven canonical keys.  (A non-mapping
input raises AttributeError; a quantity whose stringification parses as
an infinite float, such as "inf" or "1e999", raises OverflowError, which
`except (ValueError, TypeError)` does not catch.) -/
theorem c1_theorem (d : PyDict) (h : (qtyFix (pyGet d "quantity")).isOk = true) :
    ∃ r, validate_and_fix_val (.dict d) = .ok r ∧ r.map Prod.fst = canonicalKeys := by
  cases hq : qtyFix (pyGet d "quantity") with
  | error e => rw [hq] at h; exact absurd h (by simp [Except.isOk, Except.toBool])
  | ok q =>
    refine ⟨[("material_name", strFix (pyGet d "material_name")), ("quantity", q),
             ("unit", strFix (pyGet d "unit")),
             ("project_name", strFix (pyGet d "project_name")),
             ("location", strFix (pyGet d "location")),
             ("urgency", urgFix (pyGetD d "urgency" (.str "low"))),
             ("deadline", validate_date (pyGet d "deadline"))], ?_, rfl⟩
    show validate_and_fix d = _
    unfold validate_and_fix
    rw [hq]
    rfl

/-- C1 witness: the amended totality at a concrete dict. -/
theorem c1_witness :
    (qtyFix (pyGet [("material_name", PyVal.str "cement")] "quantity")).isOk = true ∧
    ∃ r, validate_and_fix_val (.dict [("material_name", PyVal.str "cement")]) = .ok r ∧
      r.map Prod.fst = canonicalKeys :=
  ⟨rfl, c1_theorem [("material_name", PyVal.str "cement")] rfl⟩

/-- C4 counterexample: the record escaping the Coercer has seven keys,
not six: coercing the empty dict yields a record whose key list is the
seven canonical fields. -/
theorem c4_counterexample :
    validate_and_fix [] = .ok emptyCoerced ∧
    (emptyCoerced.map Prod.fst).length = 7 := ⟨rfl, rfl⟩

/-- C4 (amended): every record that escapes the Coercer — produced by
successful coercion, emergency extraction, or fallback construction — has
exactly the seven canonical keys (each holding a value or None), so
unknown extra input fields are dropped; the canonical key list has
length seven, not six. -/
theorem c4_theorem :
    canonicalKeys.length = 7 ∧
    (∀ d r, validate_and_fix d = .ok r → r.map Prod.fst = canonicalKeys) ∧
    (∀ t, (create_fallback_response t).map Prod.fst = canonicalKeys) ∧
    (∀ c t, (emergency_json_extraction c t).map Prod.fst = canonicalKeys) :=
  ⟨rfl, fun _ _ h => keys_of_validate_and_fix h, keys_of_fallback, keys_of_emergency⟩

/-- C4 witness: the key-list invariant at a concrete coercion. -/
theorem c4_witness : emptyCoerced.map Prod.fst = canonicalKeys :=
  c4_theorem.2.1 [] emptyCoerced rfl

/-- C5 counterexample: the null-like check is applied to the lower-cased
but untrimmed stringification: for input material_name " N/A " the
trimmed value "N/A" is case-insensitively null-like, so the claim says
the field becomes absent, but the code keeps "N/A". -/
theorem c5_counterexample :
    validate_and_fix [("material_name", .str " N/A ")] =
      .ok [("material_name", .str "N/A"), ("quantity", .none_), ("unit", .none_),
           ("project_name", .none_), ("location", .none_), ("urgency", .str "low"),
           ("deadline", .none_)] ∧
    pyStrip (pyStr (.str " N/A ")) = "N/A" ∧
    pyLower "N/A" = "n/a" ∧
    isNoneVal (.str "N/A") = false :=
  ⟨rfl, rfl, rfl, rfl⟩

/-- C5 (amended): for each string-like field, the output is: the
stringified and trimmed input value, kept only when the raw value is
truthy, the trimmed stringification is non-empty, and the lower-cased
UNTRIMMED stringification is not one of "null"/"none"/"n/a"; otherwise
the field is absent.  (So coerce on material_name "N/A" gives absent,
but on " N/A " keeps "N/A", and falsy raw values are always absent.) -/
theorem c5_theorem (d r : PyDict) (h : validate_and_fix d = .ok r) (k : String)
    (hk : k = "material_name" ∨ k = "unit" ∨ k = "project_name" ∨ k = "location") :
    pyGet r k =
      (if pyTruthy (pyGet d k) ∧ pyStrip (pyStr (pyGet d k)) ≠ "" ∧
          pyLower (pyStr (pyGet d k)) ∉ nullLike
       then .str (pyStrip (pyStr (pyGet d k))) else .none_) := by
  rcases hk with hk | hk | hk | hk <;> subst hk
  · exact lookup_material h
  · exact lookup_unit h
  · exact lookup_project h
  · exact lookup_location h

/-- C5 witness: the string-field rule at a concrete input. -/
theorem c5_witness :
    pyGet [("material_name", PyVal.none_), ("quantity", PyVal.none_),
           ("unit", PyVal.str "kg"), ("project_name", PyVal.none_),
           ("location", PyVal.none_), ("urgency", PyVal.str "low"),
           ("deadline", PyVal.none_)] "unit" =
      (if pyTruthy (pyGet [("unit", PyVal.str " kg ")] "unit") ∧
          pyStrip (pyStr (pyGet [("unit", PyVal.str " kg ")] "unit")) ≠ "" ∧
          pyLower (pyStr (pyGet [("unit", PyVal.str " kg ")] "unit")) ∉ nullLike
       then .str (pyStrip (pyStr (pyGet [("unit", PyVal.str " kg ")] "unit")))
       else .none_) :=
  c5_theorem [("unit", PyVal.str " kg ")] _ rfl "unit" (Or.inr (Or.inl rfl))

/-- C6 counterexample: the coerced quantity is not always an integer:
for input quantity "2.5" the output quantity is present and is the float
2.5 (value 5/2), not an integer. -/
theorem c6_counterexample :
    validate_and_fix [("quantity", .str "2.5")] =
      .ok [("material_name", .none_), ("quantity", .float (.finite 25 1)),
           ("unit", .none_), ("project_name", .none_), ("location", .none_),
           ("urgency", .str "low"), ("deadline", .none_)] ∧
    (PyFloat.finite 25 1).val = some (5 / 2) ∧
    isIntVal (.float (.finite 25 1)) = false ∧
    isNoneVal (.float (.finite 25 1)) = false := by
  refine ⟨rfl, ?_, rfl, rfl⟩
  simp [PyFloat.val]
  norm_num

/-- C6 (amended): the coerced quantity is an optional number, not always
an integer: an absent or non-numeric input gives absent; a numeric input
whose stringification contains '.' keeps the exactly parsed float value
(possibly fractional); a numeric input without '.' is truncated toward
zero to an integer. -/
theorem c6_theorem (d r : PyDict) (h : validate_and_fix d = .ok r) :
    (pyGet d "quantity" = .none_ → pyGet r "quantity" = .none_) ∧
    (∀ f, pyGet d "quantity" ≠ .none_ →
      pyFloatOfString (pyStr (pyGet d "quantity")) = some f →
      pyContainsChar (pyStr (pyGet d "quantity")) '.' = true →
      pyGet r "quantity" = .float f) ∧
    (∀ n k, pyGet d "quantity" ≠ .none_ →
      pyFloatOfString (pyStr (pyGet d "quantity")) = some (.finite n k) →
      pyContainsChar (pyStr (pyGet d "quantity")) '.' = false →
      pyGet r "quantity" =
        .int ((if n < 0 then -1 else 1) * ((n.natAbs / 10 ^ k : ℕ) : ℤ))) ∧
    (pyGet d "quantity" ≠ .none_ →
      pyFloatOfString (pyStr (pyGet d "quantity")) = none →
      pyGet r "quantity" = .none_) := by
  have hq := lookup_quantity h
  refine ⟨?_, ?_, ?_, ?_⟩
  · intro hnone
    rw [hnone] at hq
    exact (Except.ok.inj hq).symm
  · intro f hne hparse hdot
    rw [qtyFix_eq_of_ne hne, hparse] at hq
    simp only [hdot, if_true] at hq
    exact (Except.ok.inj hq).symm
  · intro n k hne hparse hdot
    rw [qtyFix_eq_of_ne hne, hparse] at hq
    simp only [hdot, Bool.false_eq_true, if_false] at hq
    exact (Except.ok.inj hq).symm
  · intro hne hparse
    rw [qtyFix_eq_of_ne hne, hparse] at hq
    by_cases hdot : pyContainsChar (pyStr (pyGet d "quantity")) '.' = true
    · simp only [hdot, if_true] at hq
      exact (Except.ok.inj hq).symm
    · simp only [Bool.not_eq_true] at hdot
      simp only [hdot, Bool.false_eq_true, if_false] at hq
      exact (Except.ok.inj hq).symm

/-- C6 witness: the quantity rule at a concrete input. -/
theorem c6_witness :
    pyGet [("material_name", PyVal.none_), ("quantity", PyVal.int 7),
           ("unit", PyVal.none_), ("project_name", PyVal.none_),
           ("location", PyVal.none_), ("urgency", PyVal.str "low"),
           ("deadline", PyVal.none_)] "quantity" = PyVal.int 7 :=
  (c6_theorem [("quantity", PyVal.str "7")] _ rfl).2.2.1 7 0
    (fun hc => PyVal.noConfusion hc) rfl rfl

/-- C10: an input in which a string-like field is present with a falsy
value — 0, False, or the empty string — always coerces that field to
absent, because the code first tests the raw value for truthiness. -/
theorem c10_theorem (d r : PyDict) (k : String)
    (hk : k = "material_name" ∨ k = "unit" ∨ k = "project_name" ∨ k = "location")
    (hv : pyGet d k = .int 0 ∨ pyGet d k = .bool false ∨ pyGet d k = .str "")
    (h : validate_and_fix d = .ok r) :
    pyGet r k = .none_ := by
  have hs : pyGet r k = strFix (pyGet d k) := by
    rcases hk with hk | hk | hk | hk <;> subst hk
    exacts [lookup_material h, lookup_unit h, lookup_project h, lookup_location h]
  rw [hs]
  rcases hv with hv | hv | hv <;> rw [hv] <;> rfl

/-- C10 witness: a falsy location value coerces to absent. -/
theorem c10_witness : pyGet emptyCoerced "location" = PyVal.none_ :=
  c10_theorem [("location", PyVal.int 0)] emptyCoerced "location"
    (Or.inr (Or.inr (Or.inr rfl))) (Or.inl rfl) rfl

/-- C3 counterexample: the extraction stage does not do a prefix decode:
on one well-formed JSON object followed by trailing text, the decode
used by parse_text — `json.loads` on the cleaned text — fails with
JSONDecodeError ("Extra data") instead of succeeding, even though the
leading object alone decodes fine. -/
theorem c3_counterexample :
    json_loads (clean_json_response
      (pyStrip "\x7b\"a\":1\x7d some trailing commentary")) = none ∧
    json_loads "\x7b\"a\":1\x7d" = some (.dict [("a", .int 1)]) := ⟨rfl, rfl⟩

/-- C3 (amended): the primary decode is a whole-string `json.loads` that
rejects trailing data, consuming a retry attempt; text with trailing
data is recovered only on the last attempt by the regex-based
emergency_json_extraction, which locates the first brace-balanced object
substring, decodes it and coerces it — so a model output consisting of
one JSON object plus trailing commentary ends, after the retries are
exhausted, in the coercion of exactly that leading object. -/
theorem c3_theorem :
    json_loads (clean_json_response
      (pyStrip "\x7b\"a\":1\x7d some trailing commentary")) = none ∧
    emergencySearch "\x7b\"a\":1\x7d some trailing commentary" =
      some "\x7b\"a\":1\x7d" ∧
    emergency_json_extraction "\x7b\"a\":1\x7d some trailing commentary"
      "orig" = emptyCoerced ∧
    parse_text "orig"
      (fun _ => .text "\x7b\"a\":1\x7d some trailing commentary") 3 =
      emptyCoerced := ⟨rfl, rfl, rfl, rfl⟩

/-- C7 counterexample: fence markers are stripped case-sensitively, not
case-insensitively: for an upper-case ```JSON fence only the backticks
are removed, the tag text survives, and the cleaned text no longer
decodes. -/
theorem c7_counterexample :
    clean_json_response "```JSON\n\x7b\"a\":1\x7d\n```" =
      "JSON\n\x7b\"a\":1\x7d" ∧
    json_loads (clean_json_response "```JSON\n\x7b\"a\":1\x7d\n```") =
      none := ⟨rfl, rfl⟩

/-- C7 (amended): before decoding, the extraction stage removes a
lower-case-only ```json marker (and bare ``` markers) at line starts and
a trailing ``` marker, then trims, so the lower-case fenced example
decodes to the expected object, while any other capitalization of the
json tag is left in place (only its backticks are removed). -/
theorem c7_theorem :
    clean_json_response "```json\n\x7b\"a\":1\x7d\n```" = "\x7b\"a\":1\x7d" ∧
    json_loads "\x7b\"a\":1\x7d" = some (.dict [("a", .int 1)]) ∧
    clean_json_response "```Json\n\x7b\"a\":1\x7d\n```" =
      "Json\n\x7b\"a\":1\x7d" := ⟨rfl, rfl, rfl⟩

/-- C9: the Coercer never mutates its input: every operation
validate_and_fix performs on its argument dict is a read (`get`), in
source order — material_name, quantity, unit, project_name, location,
urgency, deadline — the dict state after the call equals the input, and
replaying the recorded operation trace on any dict leaves it unchanged;
the instrumented run computes the same result as validate_and_fix, whose
output record is built fresh from an empty dict rather than from the
argument.  (validate_date receives an immutable value and performs no
dict operation at all.) -/
theorem c9_theorem (d : PyDict) :
    (validate_and_fix_instr d).2.1 = d ∧
    (validate_and_fix_instr d).2.2 =
      [.get "material_name", .get "quantity", .get "unit", .get "project_name",
       .get "location", .get "urgency", .get "deadline"] ∧
    applyOps d (validate_and_fix_instr d).2.2 = d ∧
    (validate_and_fix_instr d).1 = validate_and_fix d :=
  ⟨rfl, rfl, rfl, rfl⟩

theorem keys_of_parse_text_loop (text : String) (outcomes : ℕ → ModelOutcome) :
    ∀ rem att, (parse_text_loop text outcomes rem att).map Prod.fst = canonicalKeys := by
  intro rem
  induction rem with
  | zero => intro att; exact keys_of_fallback text
  | succ rem ih =>
    intro att
    cases ho : outcomes att with
    | err =>
      simp only [parse_text_loop, ho]
      split
      · exact keys_of_fallback text
      · exact ih (att + 1)
    | text t =>
      simp only [parse_text_loop, ho]
      cases hl : json_loads (clean_json_response (pyStrip t)) with
      | none =>
        simp only [hl]
        split
        · exact keys_of_emergency _ text
        · exact ih (att + 1)
      | some v =>
        simp only [hl]
        cases hv : validate_and_fix_val v with
        | ok r =>
          simp only [hv]
          obtain ⟨dd, -, hd⟩ := validate_and_fix_val_ok hv
          exact keys_of_validate_and_fix hd
        | error e =>
          simp only [hv]
          split
          · exact keys_of_fallback text
          · exact ih (att + 1)

theorem fallback_of_unparsable (text : String) (outcomes : ℕ → ModelOutcome)
    (n : ℕ) (h : ∀ i, i < n → unparsableOutcome (outcomes i)) :
    ∀ rem att, att + rem = n →
      parse_text_loop text outcomes rem att = create_fallback_response text := by
  intro rem
  induction rem with
  | zero => intro att _; rfl
  | succ rem ih =>
    intro att hsum
    have hatt : att < n := by omega
    obtain ⟨t, ho, hloads, hcore⟩ := h att hatt
    simp only [parse_text_loop, ho, hloads]
    rcases Nat.eq_zero_or_pos rem with hr | hr
    · subst hr
      rw [if_pos rfl]
      unfold emergency_json_extraction
      rw [hcore]
      rfl
    · rw [if_neg (by omega)]
      exact ih (att + 1) (by omega)

/-- C2: the Orchestrator is error-free at its call boundary: for every
request text, every retry bound and every behaviour of the model
collaborator (errors or arbitrary text on each attempt), parse_text
returns a record with exactly the canonical keys and never propagates an
exception; and when every attempt yields unparsable text (text on which
both `json.loads` and the emergency extraction fail), the result is the
fallback record: material_name is "Parse failed: " followed by the first
fifty characters of the request text and "..." — so it contains a
truncated prefix of the request — urgency is "low", and all other fields
are absent. -/
theorem c2_theorem (text : String) (outcomes : ℕ → ModelOutcome) (n : ℕ) :
    (parse_text text outcomes n).map Prod.fst = canonicalKeys ∧
    ((∀ i, i < n → unparsableOutcome (outcomes i)) →
      parse_text text outcomes n = create_fallback_response text ∧
      pyGet (create_fallback_response text) "material_name" =
        .str ("Parse failed: " ++ text.take 50 ++ "...") ∧
      (∃ before after, "Parse failed: " ++ text.take 50 ++ "..." =
        before ++ text.take 50 ++ after) ∧
      pyGet (create_fallback_response text) "urgency" = .str "low" ∧
      pyGet (create_fallback_response text) "quantity" = .none_ ∧
      pyGet (create_fallback_response text) "unit" = .none_ ∧
      pyGet (create_fallback_response text) "project_name" = .none_ ∧
      pyGet (create_fallback_response text) "location" = .none_ ∧
      pyGet (create_fallback_response text) "deadline" = .none_) := by
  refine ⟨keys_of_parse_text_loop text outcomes n 0, fun h => ?_⟩
  exact ⟨fallback_of_unparsable text outcomes n h n 0 (by omega),
    rfl, ⟨"Parse failed: ", "...", rfl⟩, rfl, rfl, rfl, rfl, rfl, rfl⟩

/-- C2 witness: the fallback at a concrete request with a model that
always answers prose. -/
theorem c2_witness :
    parse_text "need 5 bags cement" (fun _ => .text "no json here") 3 =
      create_fallback_response "need 5 bags cement" :=
  (( c2_theorem "need 5 bags cement" (fun _ => .text "no json here") 3).2
    (fun _ _ => ⟨"no json here", rfl, rfl, rfl⟩)).1

/-! ## Decimal digit lemmas -/

theorem digitChar_isDig (n : ℕ) : isDig (digitChar n) = true := by
  unfold digitChar
  rcases n with _ | _ | _ | _ | _ | _ | _ | _ | _ | n <;> rfl

theorem digVal_digitChar {n : ℕ} (h : n < 10) : digVal (digitChar n) = n := by
  interval_cases n <;> rfl

theorem digVal_le_nine {c : Char} (h : isDig c = true) : digVal c ≤ 9 := by
  unfold isDig at h
  unfold digVal
  simp only [Bool.and_eq_true, decide_eq_true_eq] at h
  omega

theorem digitsToNat_append (l : List Char) (c : Char) :
    digitsToNat (l ++ [c]) = 10 * digitsToNat l + digVal c := by
  unfold digitsToNat
  rw [List.foldl_append]
  rfl

theorem digitsToNat_natDigitsAux :
    ∀ f n, n < 10 ^ f → digitsToNat (natDigitsAux f n) = n := by
  intro f
  induction f with
  | zero =>
    intro n h
    interval_cases n
    rfl
  | succ f ih =>
    intro n h
    by_cases h10 : n < 10
    · rw [natDigitsAux, if_pos h10]
      show 10 * 0 + digVal (digitChar n) = n
      rw [digVal_digitChar h10]
      omega
    · rw [natDigitsAux, if_neg h10, digitsToNat_append]
      have hd : n / 10 < 10 ^ f := by
        rw [Nat.div_lt_iff_lt_mul (by norm_num)]
        calc n < 10 ^ (f + 1) := h
        _ = 10 ^ f * 10 := by ring
      rw [ih (n / 10) hd, digVal_digitChar (Nat.mod_lt n (by norm_num))]
      omega

theorem digitsToNat_natDecimalDigits (n : ℕ) :
    digitsToNat (natDecimalDigits n) = n := by
  refine digitsToNat_natDigitsAux (n + 1) n ?_
  calc n < 10 ^ n := Nat.lt_pow_self (by norm_num) n
  _ ≤ 10 ^ (n + 1) := Nat.pow_le_pow_right (by norm_num) (by omega)

theorem natDigitsAux_all_digits :
    ∀ f n c, c ∈ natDigitsAux f n → isDig c = true := by
  intro f
  induction f with
  | zero => intro n c hc; simp [natDigitsAux] at hc
  | succ f ih =>
    intro n c hc
    rw [natDigitsAux] at hc
    by_cases h10 : n < 10
    · rw [if_pos h10] at hc
      simp only [List.mem_singleton] at hc
      subst hc
      exact digitChar_isDig n
    · rw [if_neg h10] at hc
      rcases List.mem_append.1 hc with hc | hc
      · exact ih (n / 10) c hc
      · simp only [List.mem_singleton] at hc
        subst hc
        exact digitChar_isDig (n % 10)

theorem natDecimalDigits_all_digits (n : ℕ) :
    ∀ c ∈ natDecimalDigits n, isDig c = true :=
  fun c hc => natDigitsAux_all_digits (n + 1) n c hc

theorem natDigitsAux_ne_nil (f n : ℕ) : natDigitsAux (f + 1) n ≠ [] := by
  rw [natDigitsAux]
  by_cases h10 : n < 10
  · rw [if_pos h10]; simp
  · rw [if_neg h10]; simp

theorem natDecimalDigits_ne_nil (n : ℕ) : natDecimalDigits n ≠ [] :=
  natDigitsAux_ne_nil n n

theorem natDigitsAux_length :
    ∀ f n k, n < 10 ^ k → 1 ≤ k → (natDigitsAux f n).length ≤ k := by
  intro f
  induction f with
  | zero => intro n k _ _; simp [natDigitsAux]
  | succ f ih =>
    intro n k hn hk
    rw [natDigitsAux]
    by_cases h10 : n < 10
    · rw [if_pos h10]; simpa using hk
    · rw [if_neg h10]
      have hk2 : 2 ≤ k := by
        by_contra hlt
        have hk1 : k = 1 := by omega
        subst hk1
        simp at hn
        omega
      have hd : n / 10 < 10 ^ (k - 1) := by
        rw [Nat.div_lt_iff_lt_mul (by norm_num)]
        calc n < 10 ^ k := hn
        _ = 10 ^ (k - 1) * 10 := by
              rw [← pow_succ]
              congr 1
              omega
      have := ih (n / 10) (k - 1) hd (by omega)
      simp only [List.length_append, List.length_singleton]
      omega

theorem digitsToNat_foldl_lt {l : List Char} :
    ∀ acc, (∀ c ∈ l, isDig c = true) →
      List.foldl (fun a c => 10 * a + digVal c) acc l < (acc + 1) * 10 ^ l.length := by
  induction l with
  | nil => intro acc _; simp only [List.foldl_nil, List.length_nil, pow_zero, Nat.mul_one]; omega
  | cons c r ih =>
    intro acc h
    have hc : digVal c ≤ 9 := digVal_le_nine (h c (by simp))
    have hr := ih (10 * acc + digVal c) (fun x hx => h x (by simp [hx]))
    calc List.foldl (fun a c => 10 * a + digVal c) (10 * acc + digVal c) r
        < (10 * acc + digVal c + 1) * 10 ^ r.length := hr
    _ ≤ ((acc + 1) * 10) * 10 ^ r.length := by
          have : 10 * acc + digVal c + 1 ≤ (acc + 1) * 10 := by omega
          exact Nat.mul_le_mul_right _ this
    _ = (acc + 1) * 10 ^ (c :: r).length := by
          rw [List.length_cons, pow_succ]
          ring

theorem digitsToNat_lt {l : List Char} (h : ∀ c ∈ l, isDig c = true) :
    digitsToNat l < 10 ^ l.length := by
  have := digitsToNat_foldl_lt 0 h
  simp only [digitsToNat]
  simp only [Nat.zero_add, Nat.one_mul] at this
  exact this

theorem digitsToNat_replicate_zero (j : ℕ) (ds : List Char) :
    digitsToNat (List.replicate j '0' ++ ds) = digitsToNat ds := by
  induction j with
  | zero => rfl
  | succ j ih =>
    show digitsToNat ('0' :: (List.replicate j '0' ++ ds)) = digitsToNat ds
    unfold digitsToNat at ih ⊢
    simpa using ih

theorem digitsToNat_padZeros (w : ℕ) (ds : List Char) :
    digitsToNat (padZeros w ds) = digitsToNat ds :=
  digitsToNat_replicate_zero _ ds

theorem padZeros_length {w : ℕ} {l : List Char} (h : l.length ≤ w) :
    (padZeros w l).length = w := by
  simp [padZeros]
  omega

theorem padZeros_all_digits {w : ℕ} {l : List Char}
    (h : ∀ c ∈ l, isDig c = true) : ∀ c ∈ padZeros w l, isDig c = true := by
  intro c hc
  rcases List.mem_append.1 hc with hc | hc
  · rw [List.eq_of_mem_replicate hc]; rfl
  · exact h c hc

/-! ## Strip lemmas -/

theorem dropWhile_eq_self_of_head {p : Char → Bool} {l : List Char}
    (h : ∀ c, l.head? = some c → p c = false) : l.dropWhile p = l := by
  cases l with
  | nil => rfl
  | cons c r =>
    rw [List.dropWhile_cons, h c rfl]
    simp

theorem head?_dropWhile {p : Char → Bool} :
    ∀ {l : List Char} {c : Char}, (l.dropWhile p).head? = some c → p c = false := by
  intro l
  induction l with
  | nil => intro c hc; simp [List.dropWhile] at hc
  | cons a r ih =>
    intro c hc
    rw [List.dropWhile_cons] at hc
    by_cases hp : p a = true
    · rw [if_pos hp] at hc
      exact ih hc
    · rw [if_neg hp] at hc
      simp only [List.head?_cons, Option.some.injEq] at hc
      subst hc
      exact Bool.not_eq_true _ |>.mp hp

theorem pyStripList_eq_self {l : List Char} (h : ∀ c ∈ l, pyWs c = false) :
    pyStripList l = l := by
  unfold pyStripList
  rw [dropWhile_eq_self_of_head (fun c hc => h c (List.mem_of_mem_head? hc))]
  rw [dropWhile_eq_self_of_head
    (fun c hc => h c (List.mem_reverse.1 (List.mem_of_mem_head? hc)))]
  exact List.reverse_reverse l

theorem getLast?_of_suffix {l s : List Char} (hs : s <:+ l) (hne : s ≠ []) :
    l.getLast? = s.getLast? := by
  obtain ⟨t, ht⟩ := hs
  rw [← ht]
  exact List.getLast?_append_of_ne_nil _ hne

theorem pyStripList_idem (l : List Char) :
    pyStripList (pyStripList l) = pyStripList l := by
  set A := l.dropWhile pyWs with hA
  set B := A.reverse.dropWhile pyWs with hB
  have hstrip : pyStripList l = B.reverse := rfl
  rw [hstrip]
  rcases eq_or_ne B [] with hBnil | hBne
  · rw [hBnil]; rfl
  have hheadB : ∀ c, B.head? = some c → pyWs c = false := fun c hc => head?_dropWhile hc
  have hheadA : ∀ c, A.head? = some c → pyWs c = false := fun c hc => head?_dropWhile hc
  have hlastB : ∀ c, B.reverse.head? = some c → pyWs c = false := by
    intro c hc
    rw [List.head?_reverse] at hc
    have hsuf : B <:+ A.reverse := List.dropWhile_suffix pyWs
    rw [← getLast?_of_suffix hsuf hBne, List.getLast?_reverse] at hc
    exact hheadA c hc
  unfold pyStripList
  rw [dropWhile_eq_self_of_head hlastB, List.reverse_reverse,
      dropWhile_eq_self_of_head hheadB]

/-! ## Character class facts and the int round trip -/

theorem isDig_not_ws {c : Char} (h : isDig c = true) : pyWs c = false := by
  cases hws : pyWs c
  · rfl
  · unfold pyWs at hws
    simp only [Bool.or_eq_true, decide_eq_true_eq] at hws
    rcases hws with ((((rfl | rfl) | rfl) | rfl) | rfl) | rfl <;> exact absurd h (by decide)

theorem isDig_toNat {c : Char} (h : isDig c = true) :
    48 ≤ c.toNat ∧ c.toNat ≤ 57 := by
  unfold isDig at h
  simp only [Bool.and_eq_true, decide_eq_true_eq] at h
  exact h

theorem isDig_ne_chars {c : Char} (h : isDig c = true) :
    c ≠ '-' ∧ c ≠ '+' ∧ c ≠ '.' ∧ c ≠ 'e' ∧ c ≠ 'E' := by
  refine ⟨?_, ?_, ?_, ?_, ?_⟩ <;> rintro rfl <;> exact absurd h (by decide)

theorem pyCharLower_digit {c : Char} (h : isDig c = true) : pyCharLower c = c := by
  obtain ⟨-, h2⟩ := isDig_toNat h
  unfold pyCharLower
  rw [if_neg]
  rintro ⟨hA, -⟩
  omega

theorem contains_eq_false {l : List Char} {c : Char} (h : ∀ x ∈ l, x ≠ c) :
    l.contains c = false := by
  induction l with
  | nil => rfl
  | cons a r ih =>
    simp only [List.contains_cons, Bool.or_eq_false_iff]
    exact ⟨beq_eq_false_iff_ne.2 (Ne.symm (h a (by simp))),
           ih (fun x hx => h x (by simp [hx]))⟩

theorem takeWhile_all {p : Char → Bool} :
    ∀ {l : List Char}, (∀ c ∈ l, p c = true) → l.takeWhile p = l := by
  intro l
  induction l with
  | nil => intro _; rfl
  | cons a r ih =>
    intro h
    simp [List.takeWhile_cons, h a (by simp), ih (fun c hc => h c (by simp [hc]))]

theorem dropWhile_all {p : Char → Bool} :
    ∀ {l : List Char}, (∀ c ∈ l, p c = true) → l.dropWhile p = [] := by
  intro l
  induction l with
  | nil => intro _; rfl
  | cons a r ih =>
    intro h
    simp [List.dropWhile_cons, h a (by simp), ih (fun c hc => h c (by simp [hc]))]

theorem span_all {p : Char → Bool} {l : List Char} (h : ∀ c ∈ l, p c = true) :
    l.span p = (l, []) := by
  rw [List.span_eq_take_drop, takeWhile_all h, dropWhile_all h]

theorem map_lower_digits_ne {D w : List Char} (hne : D ≠ [])
    (hdig : ∀ c ∈ D, isDig c = true) (hw : ∀ c ∈ w, isDig c = false) (hwne : w ≠ []) :
    D.map pyCharLower ≠ w := by
  intro hcontra
  obtain ⟨c, rest, rfl⟩ := List.exists_cons_of_ne_nil hne
  obtain ⟨x, xrest, rfl⟩ := List.exists_cons_of_ne_nil hwne
  simp only [List.map_cons, List.cons.injEq] at hcontra
  have hc : isDig c = true := hdig c (by simp)
  rw [pyCharLower_digit hc] at hcontra
  rw [hcontra.1] at hc
  rw [hw x (by simp)] at hc
  exact Bool.false_ne_true hc

theorem splitSign_of_ne {c : Char} {rest : List Char} (hm : c ≠ '-') (hp : c ≠ '+') :
    splitSign (c :: rest) = (false, c :: rest) := by
  unfold splitSign
  split
  · rename_i heq
    injection heq with h1 h2
    exact absurd h1 hm
  · rename_i heq
    injection heq with h1 h2
    exact absurd h1 hp
  · rfl

theorem floatOfParts_digits (neg : Bool) (D : List Char)
    (hcut : digitsToNat D < floatCutoff) :
    floatOfParts neg D [] false [] =
      .finite ((if neg then -1 else 1) * (digitsToNat D : ℤ)) 0 := by
  have hnk : floatPartsNK ([] : List Char).length (digitsToNat (D ++ []))
      ((if (false : Bool) then -1 else 1) * ((digitsToNat [] : ℕ) : ℤ)) =
      (digitsToNat D, 0) := by
    unfold floatPartsNK
    norm_num [digitsToNat]
  unfold floatOfParts
  rw [hnk]
  rw [if_neg (by simpa using hcut)]
  unfold mkFinite
  rfl

theorem pyFloatCore_digits {D : List Char} (neg : Bool) (hne : D ≠ [])
    (hdig : ∀ c ∈ D, isDig c = true) (hcut : digitsToNat D < floatCutoff) :
    pyFloatCore ((if neg then ['-'] else []) ++ D) =
      some (.finite ((if neg then -1 else 1) * (digitsToNat D : ℤ)) 0) := by
  obtain ⟨c, rest, hD⟩ := List.exists_cons_of_ne_nil hne
  have hcdig : isDig c = true := hdig c (by rw [hD]; simp)
  obtain ⟨hm, hp, -, -, -⟩ := isDig_ne_chars hcdig
  have hsign : splitSign ((if neg then ['-'] else []) ++ D) = (neg, D) := by
    cases neg
    · show splitSign ([] ++ D) = (false, D)
      rw [List.nil_append, hD]
      exact splitSign_of_ne hm hp
    · show splitSign ('-' :: D) = (true, D)
      rfl
  unfold pyFloatCore
  simp only [hsign]
  rw [if_neg, if_neg]
  · have hspan : D.span isDig = (D, []) := span_all hdig
    simp only [hspan]
    rw [if_neg hne]
    rw [floatOfParts_digits neg D hcut]
  · exact map_lower_digits_ne hne hdig (by decide) (by decide)
  · rintro (hx | hx) <;>
      exact map_lower_digits_ne hne hdig (by decide) (by decide) hx

theorem pyStr_int (n : ℤ) : pyStr (.int n) = intDecimal n := rfl

theorem intDecimal_data (n : ℤ) :
    (intDecimal n).data = (if n < 0 then ['-'] else []) ++ natDecimalDigits n.natAbs := by
  unfold intDecimal natDecimal
  by_cases hn : n < 0
  · rw [if_pos hn, if_pos hn]; rfl
  · rw [if_neg hn, if_neg hn]; rfl

theorem intDecimal_chars {n : ℤ} :
    ∀ c ∈ (intDecimal n).data, c = '-' ∨ isDig c = true := by
  rw [intDecimal_data]
  intro c hc
  rcases List.mem_append.1 hc with hc | hc
  · by_cases hn : n < 0
    · rw [if_pos hn] at hc
      simp only [List.mem_singleton] at hc
      exact Or.inl hc
    · rw [if_neg hn] at hc
      simp at hc
  · exact Or.inr (natDecimalDigits_all_digits _ c hc)

theorem intDecimal_no_ws {n : ℤ} : ∀ c ∈ (intDecimal n).data, pyWs c = false := by
  intro c hc
  rcases intDecimal_chars c hc with rfl | hd
  · decide
  · exact isDig_not_ws hd

theorem intDecimal_no_dot (n : ℤ) : pyContainsChar (intDecimal n) '.' = false := by
  refine contains_eq_false ?_
  intro x hx
  rcases intDecimal_chars x hx with rfl | hd
  · decide
  · exact (isDig_ne_chars hd).2.2.1

theorem pyFloatOfString_intDecimal {n : ℤ} (h : n.natAbs < floatCutoff) :
    pyFloatOfString (intDecimal n) = some (.finite n 0) := by
  unfold pyFloatOfString
  rw [pyStripList_eq_self intDecimal_no_ws, intDecimal_data]
  have hdig := natDecimalDigits_all_digits n.natAbs
  have hne := natDecimalDigits_ne_nil n.natAbs
  have hval : digitsToNat (natDecimalDigits n.natAbs) = n.natAbs :=
    digitsToNat_natDecimalDigits n.natAbs
  by_cases hn : n < 0
  · rw [if_pos hn]
    have hc := pyFloatCore_digits true hne hdig (by rw [hval]; exact h)
    simp only [if_true] at hc
    rw [hc, hval]
    congr 2
    omega
  · rw [if_neg hn]
    have hc := pyFloatCore_digits false hne hdig (by rw [hval]; exact h)
    simp only [Bool.false_eq_true, if_false] at hc
    rw [hc, hval]
    congr 2
    omega

theorem qtyFix_int {n : ℤ} (h : n.natAbs < floatCutoff) :
    qtyFix (.int n) = .ok (.int n) := by
  rw [qtyFix_eq_of_ne (fun hc => PyVal.noConfusion hc), pyStr_int]
  rw [intDecimal_no_dot]
  simp only [Bool.false_eq_true, if_false]
  rw [pyFloatOfString_intDecimal h]
  show Except.ok (PyVal.int ((if n < 0 then (-1 : ℤ) else 1) *
    ((n.natAbs / 10 ^ 0 : ℕ) : ℤ))) = Except.ok (PyVal.int n)
  congr 2
  simp only [pow_zero, Nat.div_one]
  by_cases hn : n < 0
  · rw [if_pos hn]; omega
  · rw [if_neg hn]; omega

/-! ## Bounds on coerced quantities -/

theorem norm10_bound :
    ∀ (k : ℕ) (n : ℤ) (c : ℕ), n.natAbs < c * 10 ^ k →
      (norm10 n k).1.natAbs < c * 10 ^ (norm10 n k).2 := by
  intro k
  induction k with
  | zero => intro n c h; exact h
  | succ k ih =>
    intro n c h
    rw [norm10]
    by_cases hdvd : n % 10 = 0
    · rw [if_pos hdvd]
      refine ih (n / 10) c ?_
      have hmul : 10 * (n / 10) = n := by omega
      have habs : n.natAbs = 10 * (n / 10).natAbs := by
        conv_lhs => rw [← hmul]
        rw [Int.natAbs_mul]
        norm_num
      rw [pow_succ, show c * (10 ^ k * 10) = c * 10 ^ k * 10 from by ring] at h
      generalize c * 10 ^ k = t at h ⊢
      omega
    · rw [if_neg hdvd]
      exact h

theorem floatOfParts_finite_bound {neg : Bool} {ip fp : List Char} {en : Bool}
    {ed : List Char} {a : ℤ} {k : ℕ}
    (h : floatOfParts neg ip fp en ed = .finite a k) :
    a.natAbs < floatCutoff * 10 ^ k := by
  unfold floatOfParts at h
  generalize ((if en then (-1 : ℤ) else 1) * (digitsToNat ed : ℤ)) = e at h
  generalize hNK : floatPartsNK fp.length (digitsToNat (ip ++ fp)) e = nk at h
  simp only [] at h
  cases neg
  · split at h
    · simp at h
    · rename_i hlt
      rw [ge_iff_le, not_le] at hlt
      unfold mkFinite at h
      injection h with h1 h2
      rw [← h1, ← h2]
      refine norm10_bound _ _ _ ?_
      rw [Int.natAbs_mul]
      simp
      omega
  · split at h
    · simp at h
    · rename_i hlt
      rw [ge_iff_le, not_le] at hlt
      unfold mkFinite at h
      injection h with h1 h2
      rw [← h1, ← h2]
      refine norm10_bound _ _ _ ?_
      rw [Int.natAbs_mul]
      simp
      omega

theorem pyFloatCore_finite_bound {l : List Char} {a : ℤ} {k : ℕ}
    (h : pyFloatCore l = some (.finite a k)) :
    a.natAbs < floatCutoff * 10 ^ k := by
  simp only [pyFloatCore] at h
  repeat
    first
    | exact floatOfParts_finite_bound h
    | (obtain ⟨-, h⟩ := h; exact floatOfParts_finite_bound h)
    | (obtain ⟨-, -, h⟩ := h; exact floatOfParts_finite_bound h)
    | (rw [Option.some.injEq] at h; exact floatOfParts_finite_bound h)
    | simp at h
    | split at h

theorem pyFloatOfString_finite_bound {s : String} {a : ℤ} {k : ℕ}
    (h : pyFloatOfString s = some (.finite a k)) :
    a.natAbs < floatCutoff * 10 ^ k :=
  pyFloatCore_finite_bound h

theorem qtyFix_ok_int_bound {v : PyVal} {m : ℤ}
    (h : qtyFix v = .ok (.int m)) : m.natAbs < floatCutoff := by
  rcases eq_or_ne v .none_ with rfl | hne
  · simp [qtyFix] at h
  rw [qtyFix_eq_of_ne hne] at h
  split at h
  · split at h <;> simp at h
  · rename_i hdot
    cases hparse : pyFloatOfString (pyStr v) with
    | none => rw [hparse] at h; simp at h
    | some f =>
      rw [hparse] at h
      cases f with
      | finite a k =>
        simp only [pyIntOfFloat] at h
        rw [Except.ok.injEq, PyVal.int.injEq] at h
        have hb := pyFloatOfString_finite_bound hparse
        have hdivlt : a.natAbs / 10 ^ k < floatCutoff := by
          rw [Nat.div_lt_iff_lt_mul (Nat.pos_pow_of_pos k (by norm_num))]
          omega
        rw [← h, Int.natAbs_mul]
        have hcast : ((a.natAbs / 10 ^ k : ℕ) : ℤ).natAbs = a.natAbs / 10 ^ k :=
          Int.natAbs_ofNat _
        rw [hcast]
        by_cases ha : a < 0
        · rw [if_pos ha]; simpa using hdivlt
        · rw [if_neg ha]; simpa using hdivlt
      | inf => simp [pyIntOfFloat] at h
      | neginf => simp [pyIntOfFloat] at h
      | nan => simp [pyIntOfFloat] at h

/-! ## Date round trip -/

theorem daysInMonth_le (y m : ℕ) : daysInMonth y m ≤ 31 := by
  unfold daysInMonth
  split_ifs <;> omega

theorem isDig_ne_Z {c : Char} (h : isDig c = true) : c ≠ 'Z' := by
  rintro rfl
  exact absurd h (by decide)

theorem list_len4 {l : List Char} (h : l.length = 4) :
    ∃ a b c d, l = [a, b, c, d] := by
  obtain ⟨a, l1, rfl⟩ := List.exists_of_length_succ l h
  simp only [List.length_cons] at h
  obtain ⟨b, l2, rfl⟩ := List.exists_of_length_succ l1 (by omega : l1.length = 2 + 1)
  simp only [List.length_cons] at h
  obtain ⟨c, l3, rfl⟩ := List.exists_of_length_succ l2 (by omega : l2.length = 1 + 1)
  simp only [List.length_cons] at h
  obtain ⟨d, l4, rfl⟩ := List.exists_of_length_succ l3 (by omega : l3.length = 0 + 1)
  simp only [List.length_cons] at h
  have h4 : l4 = [] := List.length_eq_zero.1 (by omega)
  subst h4
  exact ⟨a, b, c, d, rfl⟩

theorem list_len2 {l : List Char} (h : l.length = 2) :
    ∃ a b, l = [a, b] := by
  obtain ⟨a, l1, rfl⟩ := List.exists_of_length_succ l h
  simp only [List.length_cons] at h
  obtain ⟨b, l2, rfl⟩ := List.exists_of_length_succ l1 (by omega : l1.length = 0 + 1)
  simp only [List.length_cons] at h
  have h2 : l2 = [] := List.length_eq_zero.1 (by omega)
  subst h2
  exact ⟨a, b, rfl⟩

theorem fmtDate_data (y m d : ℕ) :
    (fmtDate y m d).data =
      padZeros 4 (natDecimalDigits y) ++ '-' ::
        (padZeros 2 (natDecimalDigits m) ++ '-' :: padZeros 2 (natDecimalDigits d)) := rfl

theorem fmtDate_chars {y m d : ℕ} :
    ∀ c ∈ (fmtDate y m d).data, c = '-' ∨ isDig c = true := by
  rw [fmtDate_data]
  intro c hc
  rcases List.mem_append.1 hc with hc | hc
  · exact Or.inr (padZeros_all_digits (natDecimalDigits_all_digits y) c hc)
  · rcases List.mem_cons.1 hc with rfl | hc
    · exact Or.inl rfl
    · rcases List.mem_append.1 hc with hc | hc
      · exact Or.inr (padZeros_all_digits (natDecimalDigits_all_digits m) c hc)
      · rcases List.mem_cons.1 hc with rfl | hc
        · exact Or.inl rfl
        · exact Or.inr (padZeros_all_digits (natDecimalDigits_all_digits d) c hc)

theorem fmtDate_no_ws {y m d : ℕ} : ∀ c ∈ (fmtDate y m d).data, pyWs c = false := by
  intro c hc
  rcases fmtDate_chars c hc with rfl | hd
  · decide
  · exact isDig_not_ws hd

theorem fmtDate_no_Z {y m d : ℕ} : ∀ c ∈ (fmtDate y m d).data, c ≠ 'Z' := by
  intro c hc
  rcases fmtDate_chars c hc with rfl | hd
  · decide
  · exact isDig_ne_Z hd

theorem fmtDate_length {y m d : ℕ} (hy : y ≤ 9999) (hm : m ≤ 99) (hd : d ≤ 99) :
    (fmtDate y m d).data.length = 10 := by
  have l1 : (natDecimalDigits y).length ≤ 4 :=
    natDigitsAux_length _ y 4 (by omega) (by omega)
  have l2 : (natDecimalDigits m).length ≤ 2 :=
    natDigitsAux_length _ m 2 (by omega) (by omega)
  have l3 : (natDecimalDigits d).length ≤ 2 :=
    natDigitsAux_length _ d 2 (by omega) (by omega)
  rw [fmtDate_data]
  simp only [List.length_append, List.length_cons,
    padZeros_length l1, padZeros_length l2, padZeros_length l3]

theorem pyReplaceList_no_pat {repl : List Char} :
    ∀ (l : List Char) (fuel : ℕ), (∀ c ∈ l, c ≠ 'Z') →
      pyReplaceList ['Z'] repl fuel l = l := by
  intro l
  induction l with
  | nil => intro fuel _; cases fuel <;> rfl
  | cons c rest ih =>
    intro fuel h
    cases fuel with
    | zero => rfl
    | succ f =>
      rw [pyReplaceList, if_neg]
      · rw [ih f (fun x hx => h x (by simp [hx]))]
      · rintro ⟨-, hpre⟩
        simp only [List.isPrefixOf, Bool.and_eq_true, beq_iff_eq] at hpre
        exact h c (by simp) hpre.1.symm

theorem pyReplace_no_Z {s : String} (h : ∀ c ∈ s.data, c ≠ 'Z') :
    pyReplace s "Z" "+00:00" = s := by
  unfold pyReplace
  rw [show ("Z" : String).data = ['Z'] from rfl,
      pyReplaceList_no_pat s.data s.data.length h]

theorem fromisoformatYMD_ranges {s : String} {y m d : ℕ}
    (h : fromisoformatYMD s = some (y, m, d)) :
    1 ≤ y ∧ y ≤ 9999 ∧ 1 ≤ m ∧ m ≤ 12 ∧ 1 ≤ d ∧ d ≤ daysInMonth y m := by
  unfold fromisoformatYMD at h
  split at h
  · rename_i y1 y2 y3 y4 m1 m2 d1 d2 rest heq
    split at h
    · rename_i hdig
      have hylt : digitsToNat [y1, y2, y3, y4] < 10 ^ 4 := by
        refine digitsToNat_lt ?_
        intro c hc
        refine List.all_eq_true.1 hdig c ?_
        simp only [List.mem_cons, List.not_mem_nil, or_false] at hc ⊢
        tauto
      split at h
      · simp only [] at h
        split at h
        · rename_i hrange
          rw [Option.some.injEq, Prod.mk.injEq, Prod.mk.injEq] at h
          obtain ⟨h1, h2, h3⟩ := h
          subst h1; subst h2; subst h3
          exact ⟨hrange.1, by omega, hrange.2.1, hrange.2.2.1,
            hrange.2.2.2.1, hrange.2.2.2.2⟩
        · simp at h
      · simp only [] at h
        split at h
        · rename_i hrange
          split at h
          · rw [Option.some.injEq, Prod.mk.injEq, Prod.mk.injEq] at h
            obtain ⟨h1, h2, h3⟩ := h
            subst h1; subst h2; subst h3
            exact ⟨hrange.1, by omega, hrange.2.1, hrange.2.2.1,
              hrange.2.2.2.1, hrange.2.2.2.2⟩
          · simp at h
        · simp at h
    · simp at h
  · simp at h

theorem fromisoformat_fmtDate {y m d : ℕ} (hy1 : 1 ≤ y) (hy : y ≤ 9999)
    (hm1 : 1 ≤ m) (hm : m ≤ 12) (hd1 : 1 ≤ d) (hd : d ≤ daysInMonth y m) :
    fromisoformatYMD (fmtDate y m d) = some (y, m, d) := by
  have hd31 := daysInMonth_le y m
  have hylen : (natDecimalDigits y).length ≤ 4 :=
    natDigitsAux_length _ y 4 (by omega) (by omega)
  have hmlen : (natDecimalDigits m).length ≤ 2 :=
    natDigitsAux_length _ m 2 (by omega) (by omega)
  have hdlen : (natDecimalDigits d).length ≤ 2 :=
    natDigitsAux_length _ d 2 (by omega) (by omega)
  obtain ⟨a, b, c, e, hY⟩ := list_len4 (padZeros_length hylen)
  obtain ⟨f, g, hM⟩ := list_len2 (padZeros_length hmlen)
  obtain ⟨i, j, hD⟩ := list_len2 (padZeros_length hdlen)
  have hdata : (fmtDate y m d).data =
      a :: b :: c :: e :: '-' :: f :: g :: '-' :: i :: j :: [] := by
    rw [fmtDate_data, hY, hM, hD]
    rfl
  have dig : ∀ x ∈ [a, b, c, e, f, g, i, j], isDig x = true := by
    intro x hx
    simp only [List.mem_cons, List.not_mem_nil, or_false] at hx
    rcases hx with rfl | rfl | rfl | rfl | rfl | rfl | rfl | rfl
    · exact padZeros_all_digits (natDecimalDigits_all_digits y) x (by rw [hY]; simp)
    · exact padZeros_all_digits (natDecimalDigits_all_digits y) x (by rw [hY]; simp)
    · exact padZeros_all_digits (natDecimalDigits_all_digits y) x (by rw [hY]; simp)
    · exact padZeros_all_digits (natDecimalDigits_all_digits y) x (by rw [hY]; simp)
    · exact padZeros_all_digits (natDecimalDigits_all_digits m) x (by rw [hM]; simp)
    · exact padZeros_all_digits (natDecimalDigits_all_digits m) x (by rw [hM]; simp)
    · exact padZeros_all_digits (natDecimalDigits_all_digits d) x (by rw [hD]; simp)
    · exact padZeros_all_digits (natDecimalDigits_all_digits d) x (by rw [hD]; simp)
  have hvy : digitsToNat [a, b, c, e] = y := by
    rw [← hY, digitsToNat_padZeros, digitsToNat_natDecimalDigits]
  have hvm : digitsToNat [f, g] = m := by
    rw [← hM, digitsToNat_padZeros, digitsToNat_natDecimalDigits]
  have hvd : digitsToNat [i, j] = d := by
    rw [← hD, digitsToNat_padZeros, digitsToNat_natDecimalDigits]
  unfold fromisoformatYMD
  rw [hdata]
  split
  · rename_i y1 y2 y3 y4 m1 m2 d1 d2 rest heq
    simp only [List.cons.injEq] at heq
    obtain ⟨h1, h2, h3, h4, -, h5, h6, -, h7, h8, h9⟩ := heq
    subst h1; subst h2; subst h3; subst h4; subst h5; subst h6
    subst h7; subst h8; subst h9
    rw [if_pos (by rw [List.all_eq_true]; exact dig)]
    simp only [hvy, hvm, hvd]
    rw [if_pos ⟨hy1, hm1, hm, hd1, hd⟩]
  · rename_i hcon
    exact absurd rfl (hcon a b c e f g i j [])

theorem validate_date_cases (v : PyVal) :
    validate_date v = .none_ ∨
    ∃ y m d, validate_date v = .str (fmtDate y m d) ∧
      1 ≤ y ∧ y ≤ 9999 ∧ 1 ≤ m ∧ m ≤ 12 ∧ 1 ≤ d ∧ d ≤ daysInMonth y m := by
  unfold validate_date
  split
  · exact Or.inl rfl
  split
  · exact Or.inl rfl
  rename_i h1 h2
  cases hiso : fromisoformatYMD (pyReplace (pyStrip (pyStr v)) "Z" "+00:00") with
  | none => exact Or.inl rfl
  | some t =>
    obtain ⟨y, m, d⟩ := t
    obtain ⟨r1, r2, r3, r4, r5, r6⟩ := fromisoformatYMD_ranges hiso
    exact Or.inr ⟨y, m, d, rfl, r1, r2, r3, r4, r5, r6⟩

theorem validate_date_fmt {y m d : ℕ} (hy1 : 1 ≤ y) (hy : y ≤ 9999)
    (hm1 : 1 ≤ m) (hm : m ≤ 12) (hd1 : 1 ≤ d) (hd : d ≤ daysInMonth y m) :
    validate_date (.str (fmtDate y m d)) = .str (fmtDate y m d) := by
  have hd31 := daysInMonth_le y m
  have hlen : (fmtDate y m d).data.length = 10 :=
    fmtDate_length hy (by omega) (by omega)
  have hne : fmtDate y m d ≠ "" := by
    intro hcon
    rw [hcon] at hlen
    simp at hlen
  unfold validate_date
  rw [if_neg, if_neg]
  · have hstr : pyStr (.str (fmtDate y m d)) = fmtDate y m d := rfl
    rw [hstr]
    have hstrip : pyStrip (fmtDate y m d) = fmtDate y m d := by
      unfold pyStrip
      rw [pyStripList_eq_self fmtDate_no_ws]
    rw [hstrip, pyReplace_no_Z fmtDate_no_Z,
        fromisoformat_fmtDate hy1 hy hm1 hm hd1 hd]
  · intro hmem
    have hlow : (pyLower (pyStr (.str (fmtDate y m d)))).data.length = 10 := by
      show ((fmtDate y m d).data.map pyCharLower).length = 10
      rw [List.length_map]
      exact hlen
    rcases List.mem_cons.1 hmem with heq | hmem
    · rw [heq] at hlow; simp at hlow
    rcases List.mem_cons.1 hmem with heq | hmem
    · rw [heq] at hlow; simp at hlow
    rcases List.mem_cons.1 hmem with heq | hmem
    · rw [heq] at hlow; simp at hlow
    rcases List.mem_cons.1 hmem with heq | hmem
    · rw [heq] at hlow; simp at hlow
    · simp at hmem
  · rw [not_not]
    show pyTruthy (.str (fmtDate y m d)) = true
    simp [pyTruthy, hne]

theorem validate_date_idem (v : PyVal) :
    validate_date (validate_date v) = validate_date v := by
  rcases validate_date_cases v with hnone | ⟨y, m, d, hstr, r1, r2, r3, r4, r5, r6⟩
  · rw [hnone]; rfl
  · rw [hstr]
    exact validate_date_fmt r1 r2 r3 r4 r5 r6

/-! ## Idempotence of the field rules -/

theorem pyStrip_idem (s : String) : pyStrip (pyStrip s) = pyStrip s :=
  congrArg String.mk (pyStripList_idem s.data)

theorem strFix_cases (v : PyVal) :
    strFix v = .none_ ∨
    (strFix v = .str (pyStrip (pyStr v)) ∧ pyStrip (pyStr v) ≠ "") := by
  unfold strFix
  split
  · rename_i hcond
    exact Or.inr ⟨rfl, hcond.2.1⟩
  · exact Or.inl rfl

theorem strFix_str {s : String} (hne : s ≠ "") (hstrip : pyStrip s = s)
    (hnl : pyLower s ∉ nullLike) : strFix (.str s) = .str s := by
  unfold strFix
  rw [if_pos]
  · rw [show pyStr (.str s) = s from rfl, hstrip]
  · refine ⟨?_, ?_, ?_⟩
    · show pyTruthy (.str s) = true
      simp [pyTruthy, hne]
    · show pyStrip (pyStr (.str s)) ≠ ""
      rw [show pyStr (.str s) = s from rfl, hstrip]
      exact hne
    · exact hnl

theorem strFix_idem {v : PyVal} (h : noNullLikeStr (strFix v) = true) :
    strFix (strFix v) = strFix v := by
  rcases strFix_cases v with hn | ⟨hs, hne⟩
  · rw [hn]; rfl
  · rw [hs] at h ⊢
    have hnl : pyLower (pyStrip (pyStr v)) ∉ nullLike := of_decide_eq_true h
    exact strFix_str hne (pyStrip_idem _) hnl

theorem urgFix_idem (v : PyVal) : urgFix (urgFix v) = urgFix v := by
  have hcases : urgFix v = .str "low" ∨ urgFix v = .str "medium" ∨
      urgFix v = .str "high" := by
    unfold urgFix
    split
    · rename_i hmem
      simp only [List.mem_cons, List.mem_singleton, List.not_mem_nil, or_false] at hmem
      rcases hmem with h | h | h
      · exact Or.inl (by rw [h])
      · exact Or.inr (Or.inl (by rw [h]))
      · exact Or.inr (Or.inr (by rw [h]))
    · exact Or.inl rfl
  rcases hcases with h | h | h <;> rw [h] <;> rfl

theorem validate_and_fix_build (L : PyDict) (q : PyVal)
    (hq : qtyFix (pyGet L "quantity") = .ok q) :
    validate_and_fix L = .ok
      [("material_name", strFix (pyGet L "material_name")), ("quantity", q),
       ("unit", strFix (pyGet L "unit")),
       ("project_name", strFix (pyGet L "project_name")),
       ("location", strFix (pyGet L "location")),
       ("urgency", urgFix (pyGetD L "urgency" (.str "low"))),
       ("deadline", validate_date (pyGet L "deadline"))] := by
  unfold validate_and_fix
  rw [hq]
  rfl

theorem vaf_roundtrip (m0 u0 p0 l0 ur0 dl0 q : PyVal)
    (hqv : qtyFix q = .ok q)
    (hm : noNullLikeStr (strFix m0) = true)
    (hu : noNullLikeStr (strFix u0) = true)
    (hp : noNullLikeStr (strFix p0) = true)
    (hl : noNullLikeStr (strFix l0) = true) :
    validate_and_fix
      [("material_name", strFix m0), ("quantity", q), ("unit", strFix u0),
       ("project_name", strFix p0), ("location", strFix l0),
       ("urgency", urgFix ur0), ("deadline", validate_date dl0)] = .ok
      [("material_name", strFix m0), ("quantity", q), ("unit", strFix u0),
       ("project_name", strFix p0), ("location", strFix l0),
       ("urgency", urgFix ur0), ("deadline", validate_date dl0)] := by
  have hb := validate_and_fix_build
    [("material_name", strFix m0), ("quantity", q), ("unit", strFix u0),
     ("project_name", strFix p0), ("location", strFix l0),
     ("urgency", urgFix ur0), ("deadline", validate_date dl0)] q hqv
  rw [hb]
  show Except.ok
      [("material_name", strFix (strFix m0)), ("quantity", q),
       ("unit", strFix (strFix u0)), ("project_name", strFix (strFix p0)),
       ("location", strFix (strFix l0)), ("urgency", urgFix (urgFix ur0)),
       ("deadline", validate_date (validate_date dl0))] = _
  rw [strFix_idem hm, strFix_idem hu, strFix_idem hp, strFix_idem hl,
      urgFix_idem, validate_date_idem]

/-- C8 counterexample: coercion is not idempotent: coercing
material_name " N/A " keeps "N/A", but coercing the resulting record
again erases it (lower-case "n/a" is null-like), so
validate_and_fix(validate_and_fix(d)) differs from validate_and_fix(d). -/
theorem c8_counterexample :
    validate_and_fix [("material_name", .str " N/A ")] =
      .ok [("material_name", .str "N/A"), ("quantity", .none_), ("unit", .none_),
           ("project_name", .none_), ("location", .none_), ("urgency", .str "low"),
           ("deadline", .none_)] ∧
    validate_and_fix
      [("material_name", .str "N/A"), ("quantity", .none_), ("unit", .none_),
       ("project_name", .none_), ("location", .none_), ("urgency", .str "low"),
       ("deadline", .none_)] = .ok emptyCoerced ∧
    pyGet emptyCoerced "material_name" = .none_ ∧
    isNoneVal (.str "N/A") = false := ⟨rfl, rfl, rfl, rfl⟩

/-- C8 (amended): coercion is idempotent on every input whose coerced
record has no string field that lower-cases to a null-like token and a
quantity that is absent or an integer: re-coercing such a record returns
it unchanged.  (It is not idempotent in general: a kept string whose
lower-casing is null-like, such as "N/A", is erased by the second pass,
and float quantities can change representation.) -/
theorem c8_theorem (d r : PyDict) (h : validate_and_fix d = .ok r)
    (hm : noNullLikeStr (pyGet r "material_name") = true)
    (hu : noNullLikeStr (pyGet r "unit") = true)
    (hp : noNullLikeStr (pyGet r "project_name") = true)
    (hl : noNullLikeStr (pyGet r "location") = true)
    (hq : (isNoneVal (pyGet r "quantity") || isIntVal (pyGet r "quantity")) = true) :
    validate_and_fix r = .ok r := by
  obtain ⟨q, hq0, hr⟩ := validate_and_fix_ok_eq h
  subst hr
  have hq1 : (isNoneVal q || isIntVal q) = true := hq
  have hqv : qtyFix q = .ok q := by
    cases q with
    | none_ => rfl
    | int n => exact qtyFix_int (qtyFix_ok_int_bound hq0)
    | bool b => simp [isNoneVal, isIntVal] at hq1
    | float f => simp [isNoneVal, isIntVal] at hq1
    | str s => simp [isNoneVal, isIntVal] at hq1
    | list l => simp [isNoneVal, isIntVal] at hq1
    | dict dd => simp [isNoneVal, isIntVal] at hq1
  exact vaf_roundtrip (pyGet d "material_name") (pyGet d "unit")
    (pyGet d "project_name") (pyGet d "location")
    (pyGetD d "urgency" (.str "low")) (pyGet d "deadline") q hqv hm hu hp hl

/-- C8 witness: idempotence at a concrete record (material "cement",
quantity 5). -/
theorem c8_witness :
    validate_and_fix
      [("material_name", .str "cement"), ("quantity", .int 5), ("unit", .none_),
       ("project_name", .none_), ("location", .none_), ("urgency", .str "low"),
       ("deadline", .none_)] = .ok
      [("material_name", .str "cement"), ("quantity", .int 5), ("unit", .none_),
       ("project_name", .none_), ("location", .none_), ("urgency", .str "low"),
       ("deadline", .none_)] :=
  c8_theorem [("material_name", .str "cement"), ("quantity", .int 5)]
    [("material_name", .str "cement"), ("quantity", .int 5), ("unit", .none_),
     ("project_name", .none_), ("location", .none_), ("urgency", .str "low"),
     ("deadline", .none_)] rfl rfl rfl rfl rfl rfl

end InfoParser
